import Mathlib

/-!
Verification development for the cell-avenue-rag repository.

Texts are modelled as `List Char` (one element per Unicode code point, matching
Python string indexing and `len`).  Fallible external calls (LLM invocations,
retrieval, token streams, UUID generation, SHA-256) are modelled as explicit
oracle parameters; everything the repository itself computes is embedded as an
executable Lean function.

Sections:
  1. Python string primitives (strip, whitespace, lowercase, joins).
  2. A regular-expression engine (Brzozowski derivatives) used to embed the
     `re` patterns of `scripts/clean_raw_data.py` literally.
  3. The Cleaner (`scripts/clean_raw_data.py`).
  4. The Semantic Chunker (`scripts/chunk_semantic.py`).
  5. The Session Store and Query Engine (`app/rag/retriever.py`).
  6. Theorems for the claims.
-/

/-! ## 1. Python string primitives -/

/-- Python whitespace (`\s`, and the characters removed by `str.strip()`). -/
def isPySpace (c : Char) : Bool :=
  c = ' ' || c = '\t' || c = '\n' || c = '\r' || c = '\u000B' || c = '\u000C'

/-- Remove trailing Python whitespace (Python `str.rstrip()`). -/
def pyRStrip : List Char → List Char
  | [] => []
  | c :: rest =>
    match pyRStrip rest with
    | [] => if isPySpace c then [] else [c]
    | r => c :: r

/-- Remove leading and trailing Python whitespace (Python `str.strip()`). -/
def pyStrip (l : List Char) : List Char :=
  pyRStrip (l.dropWhile isPySpace)

/-- `needle.listStartsWith hay = true` iff `needle` is a prefix of `hay`. -/
def listStartsWith : List Char → List Char → Bool
  | [], _ => true
  | _ :: _, [] => false
  | a :: as, b :: bs => a = b && listStartsWith as bs

/-- Substring containment (Python `sub in s`). -/
def containsSub (needle : List Char) : List Char → Bool
  | [] => listStartsWith needle []
  | c :: rest => listStartsWith needle (c :: rest) || containsSub needle rest

/-- Python `str.lower()` (ASCII case folding suffices for the embedded data). -/
def pyLower (l : List Char) : List Char := l.map Char.toLower

/-- Python `sep.join(parts)`. -/
def joinSep (sep : List Char) : List (List Char) → List Char
  | [] => []
  | [x] => x
  | x :: y :: rest => x ++ sep ++ joinSep sep (y :: rest)

/-- Python `l[-n:]`: the last `n` elements (whole list when shorter). -/
def lastN (n : Nat) (l : List α) : List α := l.drop (l.length - n)

/-! ## 2. Regular expressions via Brzozowski derivatives -/

/-- Regular expressions over characters; `cls` is a character class. -/
inductive RE where
  | emp : RE
  | eps : RE
  | cls : (Char → Bool) → RE
  | cat : RE → RE → RE
  | alt : RE → RE → RE
  | star : RE → RE

def RE.nullable : RE → Bool
  | .emp => false
  | .eps => true
  | .cls _ => false
  | .cat a b => a.nullable && b.nullable
  | .alt a b => a.nullable || b.nullable
  | .star _ => true

def RE.deriv : RE → Char → RE
  | .emp, _ => .emp
  | .eps, _ => .emp
  | .cls p, c => if p c then .eps else .emp
  | .cat a b, c =>
    if a.nullable then .alt (.cat (a.deriv c) b) (b.deriv c) else .cat (a.deriv c) b
  | .alt a b, c => .alt (a.deriv c) (b.deriv c)
  | .star a, c => .cat (a.deriv c) (.star a)

/-- Whole-string match (`re.fullmatch`, and `^pat$` under `re.search`). -/
def RE.full (r : RE) (l : List Char) : Bool :=
  (l.foldl RE.deriv r).nullable

/-- Single literal character. -/
def RE.chr (c : Char) : RE := .cls (fun d => d = c)

/-- Single literal character, case-insensitive (`re.IGNORECASE`). -/
def RE.chrCI (c : Char) : RE := .cls (fun d => d.toLower = c.toLower)

/-- Literal string. -/
def RE.lstr (s : String) : RE := s.data.foldr (fun c r => .cat (RE.chr c) r) .eps

/-- Literal string, case-insensitive. -/
def RE.lstrCI (s : String) : RE := s.data.foldr (fun c r => .cat (RE.chrCI c) r) .eps

/-- `pat?` -/
def RE.opt (r : RE) : RE := .alt .eps r

/-- `pat+` -/
def RE.plus (r : RE) : RE := .cat r (.star r)

/-- `\s` -/
def sCls : RE := .cls isPySpace

/-- `.` (does not match a newline). -/
def dotCls : RE := .cls (fun c => c ≠ '\n')

/-- A class matching any character (used to close off unanchored matches). -/
def anyCls : RE := .cls (fun _ => true)

/-- Python `pat.match(s)`: some prefix of `s` matches `pat`. -/
def RE.matchStart (r : RE) (l : List Char) : Bool :=
  (RE.cat r (.star anyCls)).full l

/-- Index of the leftmost position where a match of `r` begins (`m.start()` of
`pat.search(s)`), if any. -/
def findMatchStart (r : RE) : List Char → Option Nat
  | [] => if r.matchStart [] then some 0 else none
  | c :: rest =>
    if r.matchStart (c :: rest) then some 0
    else (findMatchStart r rest).map (· + 1)

/-! ## 3. The Cleaner (`scripts/clean_raw_data.py`) -/

/-- First pass of `normalize_whitespace`: `text.replace("\r\n", "\n")`
(leftmost, non-overlapping). -/
def replaceCRLF : List Char → List Char
  | [] => []
  | [c] => [c]
  | c :: d :: rest =>
    if c = '\r' ∧ d = '\n' then '\n' :: replaceCRLF rest
    else c :: replaceCRLF (d :: rest)

/-- Second pass: `text.replace("\r", "\n")`. -/
def crToNL (c : Char) : Char := if c = '\r' then '\n' else c

/-- The class `[ \t]`. -/
def isSpTab (c : Char) : Bool := c = ' ' || c = '\t'

/-- `re.sub(r"[ \t]+", " ", text)`: each maximal run of spaces/tabs becomes a
single space.  Formulated structurally: inside a run, drop the leading
character; at the end of a run, emit `' '`. -/
def collapseSpaces : List Char → List Char
  | [] => []
  | [c] => if isSpTab c then [' '] else [c]
  | c :: d :: rest =>
    if isSpTab c && isSpTab d then collapseSpaces (d :: rest)
    else (if isSpTab c then ' ' else c) :: collapseSpaces (d :: rest)

/-- `re.sub(r"\n{3,}", "\n\n", text)`: each maximal run of three or more
newlines becomes two.  Formulated structurally: delete the excess leading
newline of any run of three. -/
def collapseNewlines : List Char → List Char
  | [] => []
  | [c] => [c]
  | [c, d] => [c, d]
  | c :: d :: e :: rest =>
    if c = '\n' ∧ d = '\n' ∧ e = '\n' then collapseNewlines (d :: e :: rest)
    else c :: collapseNewlines (d :: e :: rest)

/-- `normalize_whitespace` of `clean_raw_data.py`. -/
def normalize_whitespace (text : List Char) : List Char :=
  pyStrip (collapseNewlines (collapseSpaces ((replaceCRLF text).map crToNL)))

/-- Normal form left by `collapseSpaces`: no two adjacent space/tab
characters. -/
def noDbl : List Char → Prop
  | [] => True
  | [_] => True
  | a :: b :: rest => ¬(isSpTab a = true ∧ isSpTab b = true) ∧ noDbl (b :: rest)

/-- Normal form left by `collapseNewlines`: no three adjacent newlines. -/
def noTri : List Char → Prop
  | [] => True
  | [_] => True
  | [_, _] => True
  | a :: b :: c :: rest => ¬(a = '\n' ∧ b = '\n' ∧ c = '\n') ∧ noTri (b :: c :: rest)

/-- `BANNER_LINE_PATTERNS`, each applied as `pat.search(s)` to the stripped
line `s`.  The patterns are anchored with `^` (and some with `$`), so on a
newline-free `s` they reduce to prefix / whole-string matches of the body. -/
def bannerHit (s : List Char) : Bool :=
  -- r"^\s*dear customers,?\s*$"
  (RE.cat (.star sCls) (.cat (.lstrCI "dear customers")
    (.cat (.opt (.chr ',')) (.star sCls)))).full s
  -- r"^\s*dear customer kindly note that all placed orders"
  || (RE.cat (.star sCls)
      (.lstrCI "dear customer kindly note that all placed orders")).matchStart s
  -- r"^\s*thank you for shopping at cell avenue store\.?\s*$"
  || (RE.cat (.star sCls) (.cat (.lstrCI "thank you for shopping at cell avenue store")
      (.cat (.opt (.chr '.')) (.star sCls)))).full s
  -- r"^\s*العملاء الأعزاء"
  || (RE.cat (.star sCls) (.lstrCI "العملاء الأعزاء")).matchStart s
  -- r"^\s*كل عام و انتم بخير"
  || (RE.cat (.star sCls) (.lstrCI "كل عام و انتم بخير")).matchStart s
  -- r"^\s*يرجى ملاحظة أن جميع الطلبات"
  || (RE.cat (.star sCls) (.lstrCI "يرجى ملاحظة أن جميع الطلبات")).matchStart s
  -- r"^\s*شكرًا لكم للتسوق في متجر سيل أفينيو"
  || (RE.cat (.star sCls) (.lstrCI "شكرًا لكم للتسوق في متجر سيل أفينيو")).matchStart s

/-- `NOISE_SUBSTRINGS` of `clean_raw_data.py`. -/
def noiseSubstrings : List (List Char) :=
  [ "shopping cart".data,
    "scroll up".data,
    "start typing to see products you are looking for".data,
    "ابدا بالكتابة لترى المنتجات التي تبحث عنها".data,
    "protected by **recaptcha**".data,
    "recaptcha requires verification".data,
    "google.com/intl/en/policies/privacy".data,
    "google.com/intl/en/policies/terms".data,
    "do not follow this link or you will be banned from the site".data,
    "blackhole=".data,
    "facebook social link".data,
    "linkedin social link".data,
    "add to wishlist".data,
    "quick view".data,
    "read more description".data,
    "load more products".data,
    "show sidebar".data ]

/-- `LINK_ONLY_RE = r"^\s*\[.*?\]\(https?://.*?\)\s*$"`. -/
def linkOnlyRE : RE :=
  .cat (.star sCls) (.cat (.chr '[') (.cat (.star dotCls) (.cat (.lstr "](http")
    (.cat (.opt (.chr 's')) (.cat (.lstr "://") (.cat (.star dotCls)
    (.cat (.chr ')') (.star sCls))))))))

/-- `IMAGE_LINE_RE = r"^\s*!\[.*?\]\(.*?\)\s*$"`. -/
def imageLineRE : RE :=
  .cat (.star sCls) (.cat (.lstr "![") (.cat (.star dotCls) (.cat (.lstr "](")
    (.cat (.star dotCls) (.cat (.chr ')') (.star sCls))))))

/-- `LINKED_IMAGE_LINE_RE = r"^\s*\[!\[.*?\]\(.*?\)\]\(.*?\)\s*$"`. -/
def linkedImageLineRE : RE :=
  .cat (.star sCls) (.cat (.lstr "[![") (.cat (.star dotCls) (.cat (.lstr "](")
    (.cat (.star dotCls) (.cat (.lstr ")](") (.cat (.star dotCls)
    (.cat (.chr ')') (.star sCls))))))))

/-- One `!\[.*?\]\(.*?\)` unit followed by `\s*`, for the repeated groups. -/
def imageUnit : RE :=
  .cat (.lstr "![") (.cat (.star dotCls) (.cat (.lstr "](")
    (.cat (.star dotCls) (.cat (.chr ')') (.star sCls)))))

/-- One `\[!\[.*?\]\(.*?\)\]\(.*?\)` unit followed by `\s*`. -/
def linkedImageUnit : RE :=
  .cat (.lstr "[![") (.cat (.star dotCls) (.cat (.lstr "](")
    (.cat (.star dotCls) (.cat (.lstr ")](") (.cat (.star dotCls)
    (.cat (.chr ')') (.star sCls)))))))

/-- `MULTI_IMAGE_ONLY_RE = r"^\s*(?:!\[.*?\]\(.*?\)\s*)+$"`. -/
def multiImageOnlyRE : RE := .cat (.star sCls) (.plus imageUnit)

/-- `MULTI_LINKED_IMAGE_ONLY_RE = r"^\s*(?:\[!\[.*?\]\(.*?\)\]\(.*?\)\s*)+$"`. -/
def multiLinkedImageOnlyRE : RE := .cat (.star sCls) (.plus linkedImageUnit)

/-- `LISTING_LINK_RE = r"^\s*-\s*\[.*?\]\(https?://.*?\)\s*$"`. -/
def listingLinkRE : RE :=
  .cat (.star sCls) (.cat (.chr '-') (.cat (.star sCls) (.cat (.chr '[')
    (.cat (.star dotCls) (.cat (.lstr "](http") (.cat (.opt (.chr 's'))
    (.cat (.lstr "://") (.cat (.star dotCls) (.cat (.chr ')') (.star sCls))))))))))

/-- `SHORTCODE_RE = r"\\?\[(vc_|la_|contact-form-7|wpum_|ultimatemember|/vc_|/la_).*"`,
used with `.match` (prefix). -/
def shortcodeRE : RE :=
  .cat (.opt (.chr '\\')) (.cat (.chr '[')
    (.cat (.alt (.lstrCI "vc_") (.alt (.lstrCI "la_") (.alt (.lstrCI "contact-form-7")
      (.alt (.lstrCI "wpum_") (.alt (.lstrCI "ultimatemember")
      (.alt (.lstrCI "/vc_") (.lstrCI "/la_")))))))
    (.star dotCls)))

/-- `TABLE_SEPARATOR_RE = r"^\s*\|?(?:\s*:?-{2,}:?\s*\|)+\s*$"`. -/
def tableSeparatorRE : RE :=
  .cat (.star sCls) (.cat (.opt (.chr '|'))
    (.cat (.plus (.cat (.star sCls) (.cat (.opt (.chr ':'))
      (.cat (.chr '-') (.cat (.chr '-') (.cat (.star (.chr '-'))
      (.cat (.opt (.chr ':')) (.cat (.star sCls) (.chr '|')))))))))
    (.star sCls)))

/-- `should_drop_line` of `clean_raw_data.py`. -/
def should_drop_line (line : List Char) : Bool :=
  let s := pyStrip line
  if s = [] then false
  else
    let s_lower := pyLower s
    if s = "✕".data || s = "✖".data || s = "x".data then true
    else if bannerHit s then true
    else if shortcodeRE.matchStart s then true
    else if containsSub "<base64-image-removed>".data s_lower then true
    else if imageLineRE.full s then true
    else if linkedImageLineRE.full s then true
    else if multiImageOnlyRE.full s then true
    else if multiLinkedImageOnlyRE.full s then true
    else if tableSeparatorRE.full s then true
    else if listingLinkRE.full s then true
    else if noiseSubstrings.any (fun sub => containsSub sub s_lower) then true
    else if linkOnlyRE.full s
         && (containsSub "privacy".data s_lower || containsSub "terms".data s_lower
             || containsSub "close".data s_lower) then true
    else if s_lower = "close".data || s_lower = "search".data || s_lower = "menu".data
         || s_lower = "loading...".data || s_lower = "previous".data
         || s_lower = "next".data then true
    else false

/-- `r"\n###\s*Related products\s*\n"` (IGNORECASE). -/
def relatedEnRE : RE :=
  .cat (.chr '\n') (.cat (.lstr "###") (.cat (.star sCls)
    (.cat (.lstrCI "Related products") (.cat (.star sCls) (.chr '\n')))))

/-- `r"\n###\s*منتجات ذات صلة\s*\n"` (IGNORECASE). -/
def relatedArRE : RE :=
  .cat (.chr '\n') (.cat (.lstr "###") (.cat (.star sCls)
    (.cat (.lstrCI "منتجات ذات صلة") (.cat (.star sCls) (.chr '\n')))))

/-- `strip_related_products_block` of `clean_raw_data.py`. -/
def strip_related_products_block (text : List Char) (page_type : String) : List Char :=
  if page_type ≠ "product" then text
  else
    let m1 := findMatchStart relatedEnRE text
    let m2 := findMatchStart relatedArRE text
    let cut : Option Nat :=
      match m1, m2 with
      | none, none => none
      | some i, none => some i
      | none, some j => some j
      | some i, some j => some (min i j)
    match cut with
    | none => text
    | some i => pyRStrip (text.take i)

/-- `dedupe_consecutive` of `clean_raw_data.py` (`prev` is the previously kept
line, `none` before the first). -/
def dedupeConsecutiveAux (prev : Option (List Char)) : List (List Char) → List (List Char)
  | [] => []
  | l :: rest =>
    if some l = prev ∧ pyStrip l ≠ [] then dedupeConsecutiveAux prev rest
    else l :: dedupeConsecutiveAux (some l) rest

def dedupe_consecutive (lines : List (List Char)) : List (List Char) :=
  dedupeConsecutiveAux none lines

/-- `clean_markdown` of `clean_raw_data.py`. -/
def clean_markdown (markdown : List Char) (page_type : String) : List Char :=
  let text := normalize_whitespace markdown
  let text := strip_related_products_block text page_type
  let lines := text.splitOn '\n'
  let kept := lines.filter (fun line => ¬ should_drop_line line)
  let kept2 := dedupe_consecutive kept
  let cleaned := joinSep ['\n'] kept2
  normalize_whitespace cleaned

/-- A raw page record, as far as the Cleaner inspects it
(`obj.get("markdown", "")`, `obj.get("page_type", "other")`). -/
structure RawRecord where
  markdown : List Char
  page_type : String
deriving DecidableEq, Repr

/-- A cleaned record, with the fields the downstream claims inspect. -/
structure CleanedRecord where
  text : List Char
  page_type : String
  raw_char_count : Nat
  clean_char_count : Nat
deriving DecidableEq, Repr

/-- The per-record loop body of `process_file` of `clean_raw_data.py`:
clean, drop when fewer than 40 cleaned characters, otherwise write. -/
def process_file : List RawRecord → List CleanedRecord
  | [] => []
  | r :: rest =>
    let text := clean_markdown r.markdown r.page_type
    if text.length < 40 then process_file rest
    else
      { text := text, page_type := r.page_type,
        raw_char_count := r.markdown.length,
        clean_char_count := text.length } :: process_file rest

/-! ## 4. The Semantic Chunker (`scripts/chunk_semantic.py`) -/

def MIN_DOC_CHARS : Nat := 100

def MIN_CHUNK_CHARS : Nat := 50

/-- `make_doc_id`.  SHA-256 is an external library call, so the hex digest is
an oracle parameter `sha256hex`; the code keeps its first 8 characters. -/
def make_doc_id (sha256hex : List Char → List Char) (page_type : String)
    (url : List Char) : String :=
  page_type ++ "_" ++ String.mk ((sha256hex url).take 8)

/-- One iteration of the `for chunk in chunks` loop of `merge_small_chunks`:
extend the buffer (inserting `"\n\n"` when the buffer is non-empty, i.e.
truthy), and flush it once it reaches `min_chars`. -/
def mergeStep (min_chars : Nat) (acc : List (List Char) × List Char)
    (chunk : List Char) : List (List Char) × List Char :=
  let merged := acc.1
  let buf := if acc.2 ≠ [] then acc.2 ++ "\n\n".data ++ chunk else chunk
  if min_chars ≤ buf.length then (merged ++ [buf], []) else (merged, buf)

/-- The leftover step of `merge_small_chunks`:
`merged[-1] = merged[-1] + "\n\n" + buf` when `merged` is non-empty, else
`merged.append(buf)`. -/
def attachToLast : List (List Char) → List Char → List (List Char)
  | [], b => [b]
  | [x], b => [x ++ "\n\n".data ++ b]
  | x :: y :: rest, b => x :: attachToLast (y :: rest) b

/-- `merge_small_chunks` of `chunk_semantic.py`. -/
def merge_small_chunks (chunks : List (List Char)) (min_chars : Nat) :
    List (List Char) :=
  if chunks = [] then chunks
  else
    let st := chunks.foldl (mergeStep min_chars) ([], [])
    if st.2 ≠ [] then attachToLast st.1 st.2 else st.1

/-- The `"\n\n"`-join of an in-progress `merge_small_chunks` state (emitted
chunks, then the pending buffer); used to reason about content preservation
across the fold. -/
def mergeJoinState (acc : List (List Char) × List Char) : List Char :=
  if acc.2 = [] then joinSep "\n\n".data acc.1
  else if acc.1 = [] then acc.2
  else joinSep "\n\n".data acc.1 ++ "\n\n".data ++ acc.2

/-- A cleaned record, as far as `process_record` reads it (`record.get` with
defaults). -/
structure ChunkInput where
  text : List Char
  url : List Char
  page_type : String
  language : String
  title : List Char
  crawled_at : String
deriving DecidableEq, Repr

/-- A chunk record as written to `semantic_chunks.jsonl`. -/
structure ChunkRecord where
  doc_id : String
  chunk_id : String
  chunk_index : Nat
  url : List Char
  language : String
  page_type : String
  source_title : List Char
  crawled_at : String
  text : List Char
  char_count : Nat
deriving DecidableEq, Repr

/-- The chunk dict built by `process_record` for index `idx`. -/
def mkChunk (doc_id : String) (r : ChunkInput) (idx : Nat) (chunk_text : List Char) :
    ChunkRecord :=
  { doc_id := doc_id,
    chunk_id := doc_id ++ "_c" ++ toString idx,
    chunk_index := idx,
    url := r.url, language := r.language, page_type := r.page_type,
    source_title := r.title, crawled_at := r.crawled_at,
    text := chunk_text, char_count := chunk_text.length }

/-- The `for idx, chunk_text in enumerate(chunks)` loop of `process_record`. -/
def enumChunks (doc_id : String) (r : ChunkInput) (idx : Nat) :
    List (List Char) → List ChunkRecord
  | [] => []
  | t :: rest => mkChunk doc_id r idx t :: enumChunks doc_id r (idx + 1) rest

/-- `process_record` of `chunk_semantic.py`.  The external
`SemanticChunker.create_documents` boundary detector is the oracle `chunker`. -/
def process_record (sha256hex : List Char → List Char)
    (chunker : List Char → List (List Char)) (r : ChunkInput) : List ChunkRecord :=
  let doc_id := make_doc_id sha256hex r.page_type r.url
  if r.text.length < MIN_DOC_CHARS then
    [mkChunk doc_id r 0 r.text]
  else
    let raw_chunks := chunker r.text
    let chunks := merge_small_chunks raw_chunks MIN_CHUNK_CHARS
    enumChunks doc_id r 0 chunks

/-! ## 5. Session Store and Query Engine (`app/rag/retriever.py`) -/

def MAX_HISTORY_TURNS : Nat := 10

/-- A `{"role": ..., "content": ...}` message. -/
structure Msg where
  role : String
  content : String
deriving DecidableEq, Repr

/-- The `_sessions` dictionary, as an association list with unique keys by
construction (first binding wins on lookup). -/
abbrev SessionStore := List (String × List Msg)

def lookupStore (st : SessionStore) (id : String) : Option (List Msg) :=
  match st with
  | [] => none
  | (k, v) :: rest => if k = id then some v else lookupStore rest id

def setStore (st : SessionStore) (id : String) (h : List Msg) : SessionStore :=
  match st with
  | [] => [(id, h)]
  | (k, v) :: rest => if k = id then (k, h) :: rest else (k, v) :: setStore rest id h

/-- The history bound to `id`, `[]` when absent (both `dict.get(id, [])` and
the `defaultdict` view agree on this). -/
def histOf (st : SessionStore) (id : String) : List Msg :=
  (lookupStore st id).getD []

/-- `create_session`.  `uuid.uuid4().hex[:12]` is external randomness, passed
in as `newId`; the store maps it to a fresh empty history. -/
def create_session (st : SessionStore) (newId : String) : String × SessionStore :=
  (newId, setStore st newId [])

/-- `get_session_history`: `list(self._sessions.get(session_id, []))`. -/
def get_session_history (st : SessionStore) (id : String) : List Msg :=
  (lookupStore st id).getD []

/-- `_append_to_session`: `defaultdict` lookup, append, then trim to the most
recent `MAX_HISTORY_TURNS * 2` messages. -/
def append_to_session (st : SessionStore) (id : String) (role content : String) :
    SessionStore :=
  let history := histOf st id ++ [{ role := role, content := content }]
  if MAX_HISTORY_TURNS * 2 < history.length then
    setStore st id (lastN (MAX_HISTORY_TURNS * 2) history)
  else
    setStore st id history

/-- LangChain message values (`SystemMessage` / `HumanMessage` / `AIMessage`). -/
inductive LCMsg where
  | system (content : String)
  | human (content : String)
  | ai (content : String)
deriving DecidableEq, Repr

/-- `SYSTEM_PROMPT` with `{context}` substituted (`\x27` is an apostrophe). -/
def SYSTEM_PROMPT_fmt (context : String) : String :=
  "You are the Cell Avenue Store AI assistant.\n" ++
  "You help customers with questions about products, pricing, shipping, returns, and store policies.\n\n" ++
  "RULES — follow these strictly:\n" ++
  "1. Answer ONLY from the provided context below. Never invent information.\n" ++
  "2. If the answer is not in the context, say: \"I\x27m sorry, I don\x27t have that information. Please contact Cell Avenue support for help.\"\n" ++
  "3. Include the source URL(s) for every claim you make. Place them naturally in your answer or list them at the end as \"Sources:\".\n" ++
  "4. Match the language of the user\x27s question. If they ask in Arabic, reply in Arabic. If in English, reply in English.\n" ++
  "5. Be concise, friendly, and professional.\n" ++
  "6. When listing products or prices, use bullet points for clarity.\n" ++
  "7. Always mention the currency (KWD/دينار كويتي) when discussing prices.\n\n" ++
  "CONTEXT:\n" ++ context ++ "\n"

/-- `REWRITE_PROMPT` with `{chat_history}` and `{question}` substituted. -/
def REWRITE_PROMPT_fmt (chat_history question : String) : String :=
  "Given the following conversation history and a follow-up question, rewrite the follow-up question as a standalone question that captures the full intent. Keep it concise.\n\n" ++
  "Conversation history:\n" ++ chat_history ++
  "\n\nFollow-up question: " ++ question ++
  "\n\nStandalone question:"

/-- A retrieved document plus the metadata fields `_format_docs` and
`_extract_citations` read. -/
structure Doc where
  source_title : String
  url : String
  language : String
  page_type : String
  page_content : String
deriving DecidableEq, Repr

/-- `_format_docs` body for documents numbered from `i`. -/
def formatDocsAux (i : Nat) : List Doc → List String
  | [] => []
  | d :: rest =>
    ("--- Document " ++ toString i ++ " ---\nTitle: " ++ d.source_title
      ++ "\nURL: " ++ d.url ++ "\nType: " ++ d.page_type ++ " | Language: "
      ++ d.language ++ "\n\n" ++ d.page_content ++ "\n")
      :: formatDocsAux (i + 1) rest

/-- `_format_docs` of `retriever.py`. -/
def format_docs (docs : List Doc) : String :=
  String.intercalate "\n" (formatDocsAux 1 docs)

/-- `_extract_citations` of `retriever.py`: unique non-empty URLs in
first-seen order. -/
def extractCitationsAux (seen urls : List String) : List Doc → List String
  | [] => urls
  | d :: rest =>
    if d.url ≠ "" ∧ d.url ∉ seen then
      extractCitationsAux (d.url :: seen) (urls ++ [d.url]) rest
    else
      extractCitationsAux seen urls rest

def extract_citations (docs : List Doc) : List String :=
  extractCitationsAux [] [] docs

/-- `_format_history_for_rewrite` of `retriever.py`. -/
def format_history_for_rewrite (history : List Msg) : String :=
  String.intercalate "\n" (history.map (fun m =>
    (if m.role = "user" then "User: " else "Assistant: ") ++ m.content))

/-- `_rewrite_with_context` of `retriever.py`.  The chat model is the fallible
oracle `llm`. -/
def rewrite_with_context {E : Type} (llm : String → Except E String)
    (question : String) (history : List Msg) : Except E String :=
  if history = [] then .ok question
  else
    match llm (REWRITE_PROMPT_fmt (format_history_for_rewrite (lastN 6 history))
               question) with
    | .error e => .error e
    | .ok resp =>
      let rewritten := String.mk (pyStrip resp.data)
      .ok (if rewritten = "" then question else rewritten)

/-- `"ar" if any("؀" <= c <= "ۿ" for c in question) else "en"`. -/
def detect_language (question : String) : String :=
  if question.data.any (fun c => decide (0x600 ≤ c.toNat) && decide (c.toNat ≤ 0x6FF))
  then "ar" else "en"

/-- The `for msg in history[-6:]` conversion to LangChain messages. -/
def historyToMessages (history : List Msg) : List LCMsg :=
  (lastN 6 history).map (fun m =>
    if m.role = "user" then LCMsg.human m.content else LCMsg.ai m.content)

/-- The external calls `query`/`query_stream` make, as fallible oracles.
`genStream` reports the tokens yielded before completion or failure, and
`some e` when the stream raised after those tokens. -/
structure Oracles (E : Type) where
  rewriteLLM : String → Except E String
  retrieve : String → Except E (List Doc)
  genLLM : List LCMsg → Except E String
  genStream : List LCMsg → List String × Option E

/-- The response dict of `query` (`as_of` is a wall-clock timestamp and is
omitted from the embedding). -/
structure QueryResult where
  answer : String
  citations : List String
  language : String
  chunks_used : Nat
  session_id : String
deriving DecidableEq, Repr

/-- The `if not session_id: session_id = self.create_session()` step shared
by `query` and `query_stream` (Python's truthiness also treats an empty
string as absent). -/
def resolve_session (st : SessionStore) (newId : String) :
    Option String → String × SessionStore
  | none => create_session st newId
  | some s => if s = "" then create_session st newId else (s, st)

/-- The body of `CellAvenueRAG.query` after session resolution: rewrite,
retrieve, compose, generate, persist.  Returns the response (or the
propagated exception) together with the resulting session store. -/
def query_core {E : Type} (o : Oracles E) (st1 : SessionStore)
    (sid question : String) : Except E QueryResult × SessionStore :=
  let history := get_session_history st1 sid
  match rewrite_with_context o.rewriteLLM question history with
  | .error e => (.error e, st1)
  | .ok search_query =>
    match o.retrieve search_query with
    | .error e => (.error e, st1)
    | .ok docs =>
      let context := format_docs docs
      let citations := extract_citations docs
      let language := detect_language question
      let messages := LCMsg.system (SYSTEM_PROMPT_fmt context)
        :: historyToMessages history ++ [LCMsg.human question]
      match o.genLLM messages with
      | .error e => (.error e, st1)
      | .ok answer =>
        let st2 := append_to_session st1 sid "user" question
        let st3 := append_to_session st2 sid "assistant" answer
        (.ok { answer := answer, citations := citations, language := language,
               chunks_used := docs.length, session_id := sid }, st3)

/-- `CellAvenueRAG.query`: session resolution followed by the core body. -/
def query {E : Type} (o : Oracles E) (newId : String) (st : SessionStore)
    (question : String) (session_id : Option String) :
    Except E QueryResult × SessionStore :=
  let resolved := resolve_session st newId session_id
  query_core o resolved.2 resolved.1 question

/-- The final `__metadata__` dict yielded by `query_stream`. -/
structure StreamMeta where
  citations : List String
  language : String
  chunks_used : Nat
  session_id : String
deriving DecidableEq, Repr

/-- The body of `CellAvenueRAG.query_stream` after session resolution.  The
first component lists the text tokens the generator yielded (Python only
yields truthy tokens); the second is the trailing metadata event, or the
exception that aborted the stream; the third is the resulting session
store. -/
def query_stream_core {E : Type} (o : Oracles E) (st1 : SessionStore)
    (sid question : String) : (List String × Except E StreamMeta) × SessionStore :=
  let history := get_session_history st1 sid
  match rewrite_with_context o.rewriteLLM question history with
  | .error e => (([], .error e), st1)
  | .ok search_query =>
    match o.retrieve search_query with
    | .error e => (([], .error e), st1)
    | .ok docs =>
      let citations := extract_citations docs
      let language := detect_language question
      let messages := LCMsg.system (SYSTEM_PROMPT_fmt (format_docs docs))
        :: historyToMessages history ++ [LCMsg.human question]
      let streamed := o.genStream messages
      let yielded := streamed.1.filter (fun t => t ≠ "")
      let full_response := String.join yielded
      match streamed.2 with
      | some e => ((yielded, .error e), st1)
      | none =>
        let st2 := append_to_session st1 sid "user" question
        let st3 := append_to_session st2 sid "assistant" full_response
        ((yielded, .ok { citations := citations, language := language,
                         chunks_used := docs.length, session_id := sid }), st3)

/-- `CellAvenueRAG.query_stream`: session resolution followed by the core
body. -/
def query_stream {E : Type} (o : Oracles E) (newId : String) (st : SessionStore)
    (question : String) (session_id : Option String) :
    (List String × Except E StreamMeta) × SessionStore :=
  let resolved := resolve_session st newId session_id
  query_stream_core o resolved.2 resolved.1 question

/-- A concrete retrieved document, used in closed witness statements. -/
def sampleDoc : Doc :=
  { source_title := "Phone X", url := "https://cellavenue.example/phone-x",
    language := "en", page_type := "product",
    page_content := "Phone X costs 120 KWD." }

/-- Concrete all-successful oracles for closed witness statements. -/
def sampleOracles : Oracles String :=
  { rewriteLLM := fun _ => .ok "standalone question",
    retrieve := fun _ => .ok [sampleDoc],
    genLLM := fun _ => .ok "It costs 120 KWD.",
    genStream := fun _ => (["It costs ", "120 KWD."], none) }

/-- Concrete oracles whose generation step fails, for closed witness
statements about the failure paths. -/
def failingOracles : Oracles String :=
  { rewriteLLM := fun _ => .ok "standalone question",
    retrieve := fun _ => .ok [sampleDoc],
    genLLM := fun _ => .error "rate limit",
    genStream := fun _ => (["It co"], some "disconnect") }

/-! ## 6. Theorems -/

/-! ### Session-store helper lemmas -/

theorem lookup_setStore_self (st : SessionStore) (id : String) (h : List Msg) :
    lookupStore (setStore st id h) id = some h := by
  induction st with
  | nil => simp [setStore, lookupStore]
  | cons kv rest ih =>
    obtain ⟨k, v⟩ := kv
    by_cases hk : k = id
    · simp [setStore, lookupStore, hk]
    · simp [setStore, lookupStore, hk, ih]

theorem lookup_setStore_other (st : SessionStore) (id id2 : String) (h : List Msg)
    (hne : id2 ≠ id) : lookupStore (setStore st id h) id2 = lookupStore st id2 := by
  induction st with
  | nil =>
    simp only [setStore, lookupStore]
    rw [if_neg (fun hh => hne hh.symm)]
  | cons kv rest ih =>
    obtain ⟨k, v⟩ := kv
    by_cases hk : k = id
    · subst hk
      simp only [setStore, lookupStore, if_pos rfl]
      rw [if_neg (fun hh : k = id2 => hne (hh ▸ rfl)), if_neg (fun hh : k = id2 => hne (hh ▸ rfl))]
    · simp only [setStore, lookupStore, if_neg hk]
      by_cases hk2 : k = id2
      · simp [lookupStore, hk2]
      · simp [lookupStore, hk2, ih]

theorem histOf_setStore_self (st : SessionStore) (id : String) (h : List Msg) :
    histOf (setStore st id h) id = h := by
  simp [histOf, lookup_setStore_self]

theorem histOf_setStore_other (st : SessionStore) (id id2 : String) (h : List Msg)
    (hne : id2 ≠ id) : histOf (setStore st id h) id2 = histOf st id2 := by
  simp [histOf, lookup_setStore_other st id id2 h hne]

theorem lastN_of_length_le (n : Nat) (l : List α) (h : l.length ≤ n) :
    lastN n l = l := by
  simp [lastN, Nat.sub_eq_zero_of_le h]

theorem length_lastN_le (n : Nat) (l : List α) : (lastN n l).length ≤ n := by
  simp [lastN]
  omega

theorem histOf_append_self (st : SessionStore) (id role content : String) :
    histOf (append_to_session st id role content) id
      = lastN (MAX_HISTORY_TURNS * 2)
          (histOf st id ++ [{ role := role, content := content }]) := by
  simp only [append_to_session]
  split_ifs with hlen
  · simp [histOf_setStore_self]
  · simp [histOf_setStore_self]
    exact (lastN_of_length_le _ _ (Nat.le_of_not_lt hlen)).symm

theorem histOf_append_other (st : SessionStore) (id id2 role content : String)
    (hne : id2 ≠ id) :
    histOf (append_to_session st id2 role content) id = histOf st id := by
  simp only [append_to_session]
  split_ifs with hlen
  · exact histOf_setStore_other st id2 id _ (fun hh => hne hh.symm)
  · exact histOf_setStore_other st id2 id _ (fun hh => hne hh.symm)

/-- C3.  For every session and every call to the Session Store's append
operation, immediately after the append the stored history contains at most
`2 * MAX_HISTORY_TURNS` (= 20) messages, the retained messages are exactly the
most recent `2 * MAX_HISTORY_TURNS` of the old history followed by the new
message (so trimming drops the oldest first), and they form a suffix of that
sequence (most recent ones, in order). -/
theorem claim_C3_append_bounded_drops_oldest (st : SessionStore)
    (id role content : String) :
    (histOf (append_to_session st id role content) id).length ≤ MAX_HISTORY_TURNS * 2
    ∧ histOf (append_to_session st id role content) id
        = lastN (MAX_HISTORY_TURNS * 2)
            (histOf st id ++ [{ role := role, content := content }])
    ∧ histOf (append_to_session st id role content) id
        <:+ histOf st id ++ [{ role := role, content := content }] := by
  refine ⟨?_, histOf_append_self st id role content, ?_⟩
  · rw [histOf_append_self st id role content]
    exact length_lastN_le _ _
  · rw [histOf_append_self st id role content]
    exact List.drop_suffix _ _

/-! ### Chunker lemmas -/

/-- C5.  For every cleaned record whose text is shorter than
`MIN_DOC_CHARS` (= 100), `process_record` emits exactly one chunk whose text
equals the input text, with `chunk_index` 0 and `char_count` equal to the
text length, and the external splitter oracle is never consulted (the output
is the same for any two splitters). -/
theorem claim_C5_short_doc_single_chunk (sha256hex : List Char → List Char)
    (chunker : List Char → List (List Char)) (r : ChunkInput)
    (hshort : r.text.length < MIN_DOC_CHARS) :
    (∃ c : ChunkRecord, process_record sha256hex chunker r = [c]
        ∧ c.text = r.text ∧ c.chunk_index = 0 ∧ c.char_count = r.text.length)
    ∧ ∀ chunker2, process_record sha256hex chunker r
        = process_record sha256hex chunker2 r := by
  constructor
  · refine ⟨mkChunk (make_doc_id sha256hex r.page_type r.url) r 0 r.text, ?_, rfl, rfl, rfl⟩
    simp [process_record, hshort]
  · intro chunker2
    simp [process_record, hshort]

/-- Closed witness for C5 at a concrete 10-character record: exactly one
chunk equal to the input, and the same output under a second splitter. -/
theorem claim_C5_witness :
    process_record (fun _ => "0123456789abcdef".data) (fun t => [t])
        ⟨"short text".data, "https://x".data, "product", "en", "T".data, "ts"⟩
      = [{ doc_id := "product_01234567", chunk_id := "product_01234567_c0",
           chunk_index := 0, url := "https://x".data, language := "en",
           page_type := "product", source_title := "T".data, crawled_at := "ts",
           text := "short text".data, char_count := 10 }]
    ∧ process_record (fun _ => "0123456789abcdef".data) (fun t => [t])
        ⟨"short text".data, "https://x".data, "product", "en", "T".data, "ts"⟩
      = process_record (fun _ => "0123456789abcdef".data) (fun _ => [])
        ⟨"short text".data, "https://x".data, "product", "en", "T".data, "ts"⟩ :=
  ⟨by decide,
   (claim_C5_short_doc_single_chunk (fun _ => "0123456789abcdef".data) (fun t => [t])
     ⟨"short text".data, "https://x".data, "product", "en", "T".data, "ts"⟩
     (by decide)).2 (fun _ => [])⟩

theorem length_enumChunks (doc_id : String) (r : ChunkInput) (j : Nat)
    (l : List (List Char)) : (enumChunks doc_id r j l).length = l.length := by
  induction l generalizing j with
  | nil => simp [enumChunks]
  | cons t rest ih => simp [enumChunks, ih]

theorem map_chunk_index_enumChunks (doc_id : String) (r : ChunkInput)
    (l : List (List Char)) (j : Nat) :
    (enumChunks doc_id r j l).map ChunkRecord.chunk_index = List.range' j l.length := by
  induction l generalizing j with
  | nil => simp [enumChunks]
  | cons t rest ih => simp [enumChunks, mkChunk, ih, List.range'_succ]

theorem text_mem_enumChunks (doc_id : String) (r : ChunkInput)
    (l : List (List Char)) (j : Nat) (c : ChunkRecord)
    (hmem : c ∈ enumChunks doc_id r j l) : c.text ∈ l := by
  induction l generalizing j with
  | nil => simp [enumChunks] at hmem
  | cons t rest ih =>
    simp only [enumChunks, List.mem_cons] at hmem
    rcases hmem with hc | hc
    · subst hc
      simp [mkChunk]
    · exact List.mem_cons_of_mem _ (ih (j + 1) hc)

theorem merge_fold_min (min_chars : Nat) (l : List (List Char))
    (acc : List (List Char) × List Char)
    (hacc : ∀ s ∈ acc.1, min_chars ≤ s.length) :
    ∀ s ∈ (l.foldl (mergeStep min_chars) acc).1, min_chars ≤ s.length := by
  induction l generalizing acc with
  | nil => simpa using hacc
  | cons c rest ih =>
    simp only [List.foldl_cons]
    apply ih
    simp only [mergeStep]
    split_ifs with h1 h2 h2
    · intro s hs
      rcases List.mem_append.mp hs with hs | hs
      · exact hacc s hs
      · rw [List.mem_singleton] at hs
        subst hs
        exact h2
    · exact hacc
    · intro s hs
      rcases List.mem_append.mp hs with hs | hs
      · exact hacc s hs
      · rw [List.mem_singleton] at hs
        subst hs
        exact h2
    · exact hacc

theorem mem_attachToLast (merged : List (List Char)) (b : List Char)
    (hmin : ∀ s ∈ merged, min_chars ≤ s.length) (hne : merged ≠ []) :
    ∀ s ∈ attachToLast merged b, min_chars ≤ s.length := by
  induction merged with
  | nil => exact absurd rfl hne
  | cons x rest ih =>
    cases rest with
    | nil =>
      intro s hs
      simp only [attachToLast, List.mem_singleton] at hs
      subst hs
      have := hmin x (by simp)
      calc min_chars ≤ x.length := this
        _ ≤ (x ++ "\n\n".data ++ b).length := by simp
    | cons y rest2 =>
      intro s hs
      simp only [attachToLast, List.mem_cons] at hs
      rcases hs with hs | hs
      · subst hs
        exact hmin s (by simp)
      · exact ih (fun t ht => hmin t (List.mem_cons_of_mem _ ht)) (by simp) s hs

theorem length_attachToLast (merged : List (List Char)) (b : List Char) :
    (attachToLast merged b).length = if merged = [] then 1 else merged.length := by
  induction merged with
  | nil => simp [attachToLast]
  | cons x rest ih =>
    cases rest with
    | nil => simp [attachToLast]
    | cons y rest2 =>
      simp only [attachToLast, List.length_cons, ih]
      simp

theorem merge_small_chunks_min (l : List (List Char)) (min_chars : Nat)
    (htwo : 2 ≤ (merge_small_chunks l min_chars).length) :
    ∀ s ∈ merge_small_chunks l min_chars, min_chars ≤ s.length := by
  by_cases hnil : l = []
  · subst hnil
    simp [merge_small_chunks] at htwo
  · simp only [merge_small_chunks, if_neg hnil] at htwo ⊢
    have hfold := merge_fold_min min_chars l ([], []) (by simp)
    split_ifs at htwo ⊢ with hbuf
    · by_cases hm : (l.foldl (mergeStep min_chars) ([], [])).1 = []
      · rw [hm] at htwo
        simp [attachToLast] at htwo
      · exact mem_attachToLast _ _ hfold hm
    · exact hfold

/-- C4.  For every document, the emitted chunk records have `chunk_index`
values exactly `0..n-1` in order with no gaps (their `chunk_index` projection
is `List.range n`), and when more than one chunk is emitted every chunk text
has length at least `MIN_CHUNK_CHARS` (= 50); a single (only) chunk may be
shorter. -/
theorem claim_C4_contiguous_indices_min_size (sha256hex : List Char → List Char)
    (chunker : List Char → List (List Char)) (r : ChunkInput) :
    (process_record sha256hex chunker r).map ChunkRecord.chunk_index
      = List.range (process_record sha256hex chunker r).length
    ∧ (2 ≤ (process_record sha256hex chunker r).length →
        ∀ c ∈ process_record sha256hex chunker r,
          MIN_CHUNK_CHARS ≤ c.text.length) := by
  constructor
  · by_cases hshort : r.text.length < MIN_DOC_CHARS
    · simp only [process_record, if_pos hshort, List.map_cons, List.map_nil, mkChunk,
        List.length_singleton]
      decide
    · simp only [process_record, if_neg hshort]
      rw [map_chunk_index_enumChunks, length_enumChunks, List.range_eq_range']
  · intro htwo c hmem
    by_cases hshort : r.text.length < MIN_DOC_CHARS
    · simp [process_record, if_pos hshort] at htwo
    · simp only [process_record, if_neg hshort] at htwo hmem
      have htext := text_mem_enumChunks _ r _ 0 c hmem
      have hlen : 2 ≤ (merge_small_chunks (chunker r.text) MIN_CHUNK_CHARS).length := by
        simpa [length_enumChunks] using htwo
      exact merge_small_chunks_min _ _ hlen c.text htext

set_option maxRecDepth 8000 in
/-- Closed witness for C4: a 120-character document split into two spans of
60 characters each. -/
theorem claim_C4_witness :
    (process_record (fun _ => "0123456789abcdef".data)
        (fun t => [t.take 60, t.drop 60])
        ⟨List.replicate 120 'a', "https://x".data, "product", "en", "T".data, "ts"⟩).map
        ChunkRecord.chunk_index
      = List.range (process_record (fun _ => "0123456789abcdef".data)
          (fun t => [t.take 60, t.drop 60])
          ⟨List.replicate 120 'a', "https://x".data, "product", "en", "T".data, "ts"⟩).length
    ∧ MIN_CHUNK_CHARS ≤
        ({ doc_id := "product_01234567", chunk_id := "product_01234567_c0",
           chunk_index := 0, url := "https://x".data, language := "en",
           page_type := "product", source_title := "T".data, crawled_at := "ts",
           text := List.replicate 60 'a', char_count := 60 } : ChunkRecord).text.length := by
  refine ⟨(claim_C4_contiguous_indices_min_size _ _ _).1, ?_⟩
  exact (claim_C4_contiguous_indices_min_size (fun _ => "0123456789abcdef".data)
    (fun t => [t.take 60, t.drop 60])
    ⟨List.replicate 120 'a', "https://x".data, "product", "en", "T".data, "ts"⟩).2
    (by decide) _ (by decide)

/-! ### Cleaner output-filter lemmas -/

theorem process_file_min_length (rs : List RawRecord) :
    ∀ c ∈ process_file rs, 40 ≤ c.text.length := by
  induction rs with
  | nil => simp [process_file]
  | cons r rest ih =>
    intro c hmem
    simp only [process_file] at hmem
    split_ifs at hmem with hshort
    · exact ih c hmem
    · rcases List.mem_cons.mp hmem with hc | hc
      · subst hc
        exact Nat.le_of_not_lt hshort
      · exact ih c hc

theorem process_file_skips_short (pre post : List RawRecord) (r : RawRecord)
    (hshort : (clean_markdown r.markdown r.page_type).length < 40) :
    process_file (pre ++ r :: post) = process_file (pre ++ post) := by
  induction pre with
  | nil => simp [process_file, hshort]
  | cons p pre2 ih =>
    simp only [List.cons_append, process_file, List.append_eq]
    rw [ih]

/-- C2.  Every record written by the Cleaner has cleaned text of length at
least 40, and a record whose cleaned text is shorter than 40 characters
contributes nothing to the output stream (deleting it from the input leaves
the output unchanged). -/
theorem claim_C2_cleaner_drops_short (rs pre post : List RawRecord) (r : RawRecord) :
    (∀ c ∈ process_file rs, 40 ≤ c.text.length)
    ∧ ((clean_markdown r.markdown r.page_type).length < 40 →
        process_file (pre ++ r :: post) = process_file (pre ++ post)) :=
  ⟨process_file_min_length rs, process_file_skips_short pre post r⟩

/-- Closed witness for C2: the record that survives cleaning carries at least
40 characters of cleaned text, and a record cleaning to the empty string (all
its lines are boilerplate) contributes nothing to the output. -/
theorem claim_C2_witness :
    40 ≤ ({ text := clean_markdown
              "This page describes our shipping policy in useful detail.".data "other",
            page_type := "other", raw_char_count := 57,
            clean_char_count := (clean_markdown
              "This page describes our shipping policy in useful detail.".data
              "other").length } : CleanedRecord).text.length
    ∧ process_file
        [⟨"menu\nx".data, "other"⟩,
         ⟨"This page describes our shipping policy in useful detail.".data, "other"⟩]
      = process_file
        [⟨"This page describes our shipping policy in useful detail.".data, "other"⟩] := by
  constructor
  · exact (claim_C2_cleaner_drops_short
      [⟨"menu\nx".data, "other"⟩,
       ⟨"This page describes our shipping policy in useful detail.".data, "other"⟩] []
      [⟨"This page describes our shipping policy in useful detail.".data, "other"⟩]
      ⟨"menu\nx".data, "other"⟩).1 _ (by decide)
  · exact (claim_C2_cleaner_drops_short
      [⟨"menu\nx".data, "other"⟩,
       ⟨"This page describes our shipping policy in useful detail.".data, "other"⟩] []
      [⟨"This page describes our shipping policy in useful detail.".data, "other"⟩]
      ⟨"menu\nx".data, "other"⟩).2 (by decide)

/-! ### Query-rewrite fallback -/

/-- C8.  With empty history the rewrite step returns the original question
unchanged and never consults the model (the result is the same for any two
models); with non-empty history, when the model's reply strips to the empty
string the original question is used verbatim, with no error propagated. -/
theorem claim_C8_rewrite_fallback {E : Type} (llm llm2 : String → Except E String)
    (q : String) (h : List Msg) :
    (rewrite_with_context llm q [] = .ok q
      ∧ rewrite_with_context llm q [] = rewrite_with_context llm2 q [])
    ∧ ∀ resp, h ≠ [] →
        llm (REWRITE_PROMPT_fmt (format_history_for_rewrite (lastN 6 h)) q) = .ok resp →
        String.mk (pyStrip resp.data) = "" →
        rewrite_with_context llm q h = .ok q := by
  refine ⟨⟨rfl, rfl⟩, ?_⟩
  intro resp hne hresp hblank
  simp only [rewrite_with_context, if_neg hne, hresp, hblank]
  simp

/-- Closed witness for C8: a model whose reply is whitespace-only. -/
theorem claim_C8_witness :
    (rewrite_with_context (E := String) (fun _ => .ok " \t ") "original question" []
        = .ok "original question"
      ∧ rewrite_with_context (E := String) (fun _ => .ok " \t ") "original question" []
        = rewrite_with_context (fun _ => .error "down") "original question" [])
    ∧ rewrite_with_context (E := String) (fun _ => .ok " \t ") "original question"
        [{ role := "user", content := "earlier" }] = .ok "original question" := by
  refine ⟨(claim_C8_rewrite_fallback (fun _ => .ok " \t ")
    (fun _ => .error "down") "original question"
    [{ role := "user", content := "earlier" }]).1, ?_⟩
  exact (claim_C8_rewrite_fallback (fun _ => .ok " \t ")
    (fun _ => .error "down") "original question"
    [{ role := "user", content := "earlier" }]).2 " \t " (by decide) rfl (by decide)

/-! ### Unknown-session behavior -/

theorem histOf_setStore_empty_of_unknown (st : SessionStore) (sid : String)
    (hunk : lookupStore st sid = none) (id : String) :
    histOf (setStore st sid []) id = histOf st id := by
  by_cases hid : id = sid
  · subst hid
    simp [histOf, lookup_setStore_self, hunk]
  · exact histOf_setStore_other st sid id [] hid

theorem histOf_append_congr (st1 st2 : SessionStore) (sid role content : String)
    (hagree : ∀ id, histOf st1 id = histOf st2 id) (id : String) :
    histOf (append_to_session st1 sid role content) id
      = histOf (append_to_session st2 sid role content) id := by
  by_cases hid : id = sid
  · subst hid
    rw [histOf_append_self, histOf_append_self, hagree]
  · rw [histOf_append_other st1 id sid role content (fun hh => hid hh.symm),
      histOf_append_other st2 id sid role content (fun hh => hid hh.symm), hagree]

theorem get_session_history_eq_histOf (st : SessionStore) (id : String) :
    get_session_history st id = histOf st id := rfl

theorem resolve_session_base (st : SessionStore) (newId : String)
    (hfresh : lookupStore st newId = none) (sid? : Option String) :
    ∀ id, histOf (resolve_session st newId sid?).2 id = histOf st id := by
  intro id
  cases sid? with
  | none =>
    simp only [resolve_session, create_session]
    exact histOf_setStore_empty_of_unknown st newId hfresh id
  | some s =>
    by_cases hs : s = ""
    · simp only [resolve_session, if_pos hs, create_session]
      exact histOf_setStore_empty_of_unknown st newId hfresh id
    · simp [resolve_session, hs]

/-- `query_core` either propagates an exception and returns the store
untouched, or succeeds and appends the user question then the assistant
answer to the resolved session, in that order. -/
theorem query_core_spec {E : Type} (o : Oracles E) (st1 : SessionStore)
    (sid q : String) :
    ((∃ e, (query_core o st1 sid q).1 = .error e)
        ∧ (query_core o st1 sid q).2 = st1)
    ∨ (∃ res, (query_core o st1 sid q).1 = .ok res ∧ res.session_id = sid
        ∧ (query_core o st1 sid q).2
          = append_to_session (append_to_session st1 sid "user" q) sid "assistant"
              res.answer) := by
  unfold query_core
  dsimp only
  cases hrw : rewrite_with_context o.rewriteLLM q (get_session_history st1 sid) with
  | error e => exact Or.inl ⟨⟨e, rfl⟩, rfl⟩
  | ok sq =>
    dsimp only
    cases hret : o.retrieve sq with
    | error e => exact Or.inl ⟨⟨e, rfl⟩, rfl⟩
    | ok docs =>
      dsimp only
      cases hgen : o.genLLM (LCMsg.system (SYSTEM_PROMPT_fmt (format_docs docs))
          :: historyToMessages (get_session_history st1 sid) ++ [LCMsg.human q]) with
      | error e => exact Or.inl ⟨⟨e, rfl⟩, rfl⟩
      | ok answer => exact Or.inr ⟨_, rfl, rfl, rfl⟩

theorem query_core_error_store {E : Type} (o : Oracles E) (st1 : SessionStore)
    (sid q : String) (e : E) (h : (query_core o st1 sid q).1 = .error e) :
    (query_core o st1 sid q).2 = st1 := by
  rcases query_core_spec o st1 sid q with ⟨_, hst⟩ | ⟨res, hres, _, _⟩
  · exact hst
  · rw [hres] at h
    exact absurd h (by simp)

theorem query_core_ok_store {E : Type} (o : Oracles E) (st1 : SessionStore)
    (sid q : String) (res : QueryResult)
    (h : (query_core o st1 sid q).1 = .ok res) :
    res.session_id = sid
    ∧ (query_core o st1 sid q).2
      = append_to_session (append_to_session st1 sid "user" q) sid "assistant"
          res.answer := by
  rcases query_core_spec o st1 sid q with ⟨⟨e, he⟩, _⟩ | ⟨res2, hres2, hsid, hst⟩
  · rw [he] at h
    exact absurd h (by simp)
  · rw [hres2] at h
    injection h with h2
    subst h2
    exact ⟨hsid, hst⟩

/-- The streaming analogue of `query_core_spec`; on success the persisted
assistant message is the concatenation of the yielded (fully drained)
tokens. -/
theorem query_stream_core_spec {E : Type} (o : Oracles E) (st1 : SessionStore)
    (sid q : String) :
    ((∃ e, (query_stream_core o st1 sid q).1.2 = .error e)
        ∧ (query_stream_core o st1 sid q).2 = st1)
    ∨ (∃ meta, (query_stream_core o st1 sid q).1.2 = .ok meta
        ∧ meta.session_id = sid
        ∧ (query_stream_core o st1 sid q).2
          = append_to_session (append_to_session st1 sid "user" q) sid "assistant"
              (String.join (query_stream_core o st1 sid q).1.1)) := by
  unfold query_stream_core
  dsimp only
  cases hrw : rewrite_with_context o.rewriteLLM q (get_session_history st1 sid) with
  | error e => exact Or.inl ⟨⟨e, rfl⟩, rfl⟩
  | ok sq =>
    dsimp only
    cases hret : o.retrieve sq with
    | error e => exact Or.inl ⟨⟨e, rfl⟩, rfl⟩
    | ok docs =>
      dsimp only
      cases hstr : (o.genStream (LCMsg.system (SYSTEM_PROMPT_fmt (format_docs docs))
          :: historyToMessages (get_session_history st1 sid) ++ [LCMsg.human q])).2 with
      | some e => exact Or.inl ⟨⟨e, rfl⟩, rfl⟩
      | none => exact Or.inr ⟨_, rfl, rfl, rfl⟩

theorem query_stream_core_error_store {E : Type} (o : Oracles E)
    (st1 : SessionStore) (sid q : String) (e : E)
    (h : (query_stream_core o st1 sid q).1.2 = .error e) :
    (query_stream_core o st1 sid q).2 = st1 := by
  rcases query_stream_core_spec o st1 sid q with ⟨_, hst⟩ | ⟨meta, hmeta, _, _⟩
  · exact hst
  · rw [hmeta] at h
    exact absurd h (by simp)

theorem query_stream_core_ok_store {E : Type} (o : Oracles E)
    (st1 : SessionStore) (sid q : String) (meta : StreamMeta)
    (h : (query_stream_core o st1 sid q).1.2 = .ok meta) :
    meta.session_id = sid
    ∧ (query_stream_core o st1 sid q).2
      = append_to_session (append_to_session st1 sid "user" q) sid "assistant"
          (String.join (query_stream_core o st1 sid q).1.1) := by
  rcases query_stream_core_spec o st1 sid q with ⟨⟨e, he⟩, _⟩ | ⟨m2, hm2, hsid, hst⟩
  · rw [he] at h
    exact absurd h (by simp)
  · rw [hm2] at h
    injection h with h2
    subst h2
    exact ⟨hsid, hst⟩

/-- Two stores with pointwise equal histories drive `query_core` to the same
response and to pointwise equal resulting histories. -/
theorem query_core_congr {E : Type} (o : Oracles E) (st1 st2 : SessionStore)
    (sid q : String) (hagree : ∀ id, histOf st1 id = histOf st2 id) :
    (query_core o st1 sid q).1 = (query_core o st2 sid q).1
    ∧ ∀ id, histOf (query_core o st1 sid q).2 id
        = histOf (query_core o st2 sid q).2 id := by
  have hh : get_session_history st1 sid = get_session_history st2 sid := hagree sid
  unfold query_core
  dsimp only
  rw [hh]
  cases hrw : rewrite_with_context o.rewriteLLM q (get_session_history st2 sid) with
  | error e => exact ⟨rfl, hagree⟩
  | ok sq =>
    dsimp only
    cases hret : o.retrieve sq with
    | error e => exact ⟨rfl, hagree⟩
    | ok docs =>
      dsimp only
      cases hgen : o.genLLM (LCMsg.system (SYSTEM_PROMPT_fmt (format_docs docs))
          :: historyToMessages (get_session_history st2 sid) ++ [LCMsg.human q]) with
      | error e => exact ⟨rfl, hagree⟩
      | ok answer =>
        refine ⟨rfl, fun id => ?_⟩
        exact histOf_append_congr _ _ sid "assistant" answer
          (fun id2 => histOf_append_congr st1 st2 sid "user" q hagree id2) id

/-- C10.  A session id that was never created and never appended to reads as
empty history without error and without being added (the read is pure); the
first append creates its entry silently; and a query supplying such a
never-issued id behaves exactly like a query on a freshly created session
with that id (same response, same resulting histories). -/
theorem claim_C10_unknown_session_graceful {E : Type} (o : Oracles E)
    (st : SessionStore) (sid newId q role content : String)
    (hunk : lookupStore st sid = none) :
    get_session_history st sid = []
    ∧ lookupStore (append_to_session st sid role content) sid
        = some [{ role := role, content := content }]
    ∧ (sid ≠ "" →
        (query o newId st q (some sid)).1 = (query o sid st q none).1
        ∧ ∀ id, histOf (query o newId st q (some sid)).2 id
            = histOf (query o sid st q none).2 id) := by
  have hget : get_session_history st sid = [] := by
    simp [get_session_history, hunk]
  have hget2 : get_session_history (setStore st sid []) sid = [] := by
    simp [get_session_history, lookup_setStore_self]
  refine ⟨hget, ?_, ?_⟩
  · simp only [append_to_session, histOf, hunk, Option.getD_none, List.nil_append]
    rw [if_neg (by simp [MAX_HISTORY_TURNS])]
    exact lookup_setStore_self st sid _
  · intro hsid
    have e1 : query o newId st q (some sid) = query_core o st sid q := by
      simp [query, resolve_session, hsid]
    have e2 : query o sid st q none = query_core o (setStore st sid []) sid q := by
      simp [query, resolve_session, create_session]
    have hag : ∀ id, histOf st id = histOf (setStore st sid []) id :=
      fun id => (histOf_setStore_empty_of_unknown st sid hunk id).symm
    rw [e1, e2]
    exact ⟨(query_core_congr o st (setStore st sid []) sid q hag).1,
           (query_core_congr o st (setStore st sid []) sid q hag).2⟩

/-- Closed witness for C10 at a concrete store that does not know `"zz"`. -/
theorem claim_C10_witness :
    get_session_history [("abc", [{ role := "user", content := "x" }])] "zz" = []
    ∧ lookupStore (append_to_session [("abc", [{ role := "user", content := "x" }])]
        "zz" "user" "hello") "zz" = some [{ role := "user", content := "hello" }]
    ∧ ((query sampleOracles "fresh" [("abc", [{ role := "user", content := "x" }])]
          "q" (some "zz")).1
        = (query sampleOracles "zz" [("abc", [{ role := "user", content := "x" }])]
            "q" none).1
      ∧ histOf (query sampleOracles "fresh"
            [("abc", [{ role := "user", content := "x" }])] "q" (some "zz")).2 "zz"
          = histOf (query sampleOracles "zz"
              [("abc", [{ role := "user", content := "x" }])] "q" none).2 "zz") := by
  have h := claim_C10_unknown_session_graceful sampleOracles
    [("abc", [{ role := "user", content := "x" }])] "zz" "fresh" "q" "user" "hello"
    (by decide)
  exact ⟨h.1, h.2.1, (h.2.2 (by decide)).1, (h.2.2 (by decide)).2 "zz"⟩

/-! ### Fresh-session creation -/

/-- C9 counterexample.  The code derives the new session id from
`uuid.uuid4().hex[:12]` without any collision check: when the generated id
(modelled by the `newId` oracle input) already names a stored session, a
request without a `session_id` returns that very id — which the store has
already issued and held — and the pre-existing history (here one message) is
silently reset, the successful query leaving exactly the two fresh messages in
its place.  So the returned id is not unconditionally previously-unused. -/
theorem claim_C9_counterexample :
    ((query sampleOracles "abc" [("abc", [{ role := "user", content := "old" }])]
        "q" none).1.toOption.map QueryResult.session_id = some "abc")
    ∧ lookupStore [("abc", [{ role := "user", content := "old" }])] "abc" ≠ none
    ∧ histOf (query sampleOracles "abc"
        [("abc", [{ role := "user", content := "old" }])] "q" none).2 "abc"
      = [{ role := "user", content := "q" },
         { role := "assistant", content := "It costs 120 KWD." }] := by
  refine ⟨rfl, by decide, rfl⟩

/-- C9 as amended.  When the generated id is not already a key of the store
(which the code assumes but does not check), a request without a `session_id`
uses exactly that previously-unused id: the created session starts with empty
history, every other session is untouched at creation, and a successful query
reports that id back. -/
theorem claim_C9_amended_fresh_session {E : Type} (o : Oracles E)
    (st : SessionStore) (newId q : String)
    (hfresh : lookupStore st newId = none) :
    (create_session st newId).1 = newId
    ∧ get_session_history (create_session st newId).2 newId = []
    ∧ (∀ id, histOf (create_session st newId).2 id = histOf st id)
    ∧ (∀ res, (query o newId st q none).1 = .ok res → res.session_id = newId) := by
  refine ⟨rfl, by simp [get_session_history, create_session, lookup_setStore_self], ?_, ?_⟩
  · exact histOf_setStore_empty_of_unknown st newId hfresh
  · intro res hres
    have e2 : query o newId st q none = query_core o (setStore st newId []) newId q := by
      simp [query, resolve_session, create_session]
    rw [e2] at hres
    exact (query_core_ok_store o (setStore st newId []) newId q res hres).1

/-- Closed witness for C9 (amended) at a store that does not contain the
generated id. -/
theorem claim_C9_witness :
    (create_session [("abc", [{ role := "user", content := "old" }])] "fresh").1 = "fresh"
    ∧ get_session_history
        (create_session [("abc", [{ role := "user", content := "old" }])] "fresh").2
        "fresh" = []
    ∧ histOf (create_session [("abc", [{ role := "user", content := "old" }])] "fresh").2
        "abc" = histOf [("abc", [{ role := "user", content := "old" }])] "abc"
    ∧ ({ answer := "It costs 120 KWD.",
          citations := ["https://cellavenue.example/phone-x"], language := "en",
          chunks_used := 1, session_id := "fresh" } : QueryResult).session_id
        = "fresh" := by
  have h := claim_C9_amended_fresh_session sampleOracles
    [("abc", [{ role := "user", content := "old" }])] "fresh" "q" (by decide)
  exact ⟨h.1, h.2.1, h.2.2.1 "abc", h.2.2.2 _ rfl⟩

/-! ### Merge content preservation (C6) -/

theorem joinSep_cons_of_ne (sep x : List Char) (l : List (List Char)) (h : l ≠ []) :
    joinSep sep (x :: l) = x ++ sep ++ joinSep sep l := by
  cases l with
  | nil => exact absurd rfl h
  | cons y rest => rfl

theorem joinSep_append_singleton (sep x : List Char) (l : List (List Char)) :
    joinSep sep (l ++ [x]) = if l = [] then x else joinSep sep l ++ sep ++ x := by
  induction l with
  | nil => simp [joinSep]
  | cons y rest ih =>
    cases rest with
    | nil => simp [joinSep]
    | cons z rest2 =>
      rw [List.cons_append,
        joinSep_cons_of_ne sep y ((z :: rest2) ++ [x]) (by simp),
        joinSep_cons_of_ne sep y (z :: rest2) (by simp), ih, if_neg (by simp)]
      rw [if_neg (by simp)]
      simp [List.append_assoc]

theorem attachToLast_ne_nil (merged : List (List Char)) (b : List Char) :
    attachToLast merged b ≠ [] := by
  intro hcontra
  have := length_attachToLast merged b
  rw [hcontra] at this
  by_cases hm : merged = []
  · simp [hm] at this
  · simp [hm] at this
    exact hm (List.length_eq_zero.mp this.symm)

theorem attachToLast_join (merged : List (List Char)) (b : List Char)
    (hne : merged ≠ []) :
    joinSep "\n\n".data (attachToLast merged b)
      = joinSep "\n\n".data merged ++ "\n\n".data ++ b := by
  induction merged with
  | nil => exact absurd rfl hne
  | cons x rest ih =>
    cases rest with
    | nil => simp [attachToLast, joinSep]
    | cons y rest2 =>
      rw [show attachToLast (x :: y :: rest2) b = x :: attachToLast (y :: rest2) b
          from rfl,
        joinSep_cons_of_ne _ _ _ (attachToLast_ne_nil (y :: rest2) b),
        ih (by simp), joinSep_cons_of_ne _ _ _ (by simp : (y :: rest2 : List (List Char)) ≠ [])]
      simp [List.append_assoc]

theorem mergeStep_join (min_chars : Nat) (acc : List (List Char) × List Char)
    (c : List Char) (hc : c ≠ []) (hacc : acc.1 ≠ [] ∨ acc.2 ≠ []) :
    mergeJoinState (mergeStep min_chars acc c)
      = mergeJoinState acc ++ "\n\n".data ++ c
    ∧ ((mergeStep min_chars acc c).1 ≠ [] ∨ (mergeStep min_chars acc c).2 ≠ []) := by
  obtain ⟨merged, buf⟩ := acc
  by_cases hbuf : buf = []
  · subst hbuf
    have hm : merged ≠ [] := by
      rcases hacc with hm | hb
      · exact hm
      · exact absurd rfl hb
    simp only [mergeStep, ne_eq, not_true_eq_false, if_neg, ite_false, reduceIte]
    split_ifs with hflush
    · constructor
      · simp only [mergeJoinState, joinSep_append_singleton, if_neg hm]
        simp [mergeJoinState, hm]
      · left
        simp
    · constructor
      · simp [mergeJoinState, hc, hm]
      · right
        exact hc
  · simp only [mergeStep, ne_eq, hbuf, not_false_eq_true, if_pos, ite_true]
    have hbc : buf ++ "\n\n".data ++ c ≠ [] := by simp [hbuf]
    split_ifs with hflush
    · constructor
      · by_cases hm : merged = []
        · subst hm
          simp [mergeJoinState, joinSep_append_singleton, joinSep, hbuf, hbc]
        · simp only [mergeJoinState, joinSep_append_singleton, if_neg hm]
          simp [hm, hbuf, hbc, List.append_assoc]
      · left
        simp
    · constructor
      · by_cases hm : merged = []
        · subst hm
          simp [mergeJoinState, hbuf, hbc]
        · simp [mergeJoinState, hm, hbuf, hbc, List.append_assoc]
      · right
        exact hbc

theorem merge_fold_join (min_chars : Nat) (l : List (List Char))
    (hne : ∀ s ∈ l, s ≠ []) :
    ∀ acc : List (List Char) × List Char, acc.1 ≠ [] ∨ acc.2 ≠ [] →
    mergeJoinState (l.foldl (mergeStep min_chars) acc)
      = mergeJoinState acc
        ++ (if l = [] then [] else "\n\n".data ++ joinSep "\n\n".data l) := by
  induction l with
  | nil => intro acc hacc; simp
  | cons c rest ih =>
    intro acc hacc
    have hc : c ≠ [] := hne c (by simp)
    have hstep := mergeStep_join min_chars acc c hc hacc
    rw [List.foldl_cons, ih (fun s hs => hne s (List.mem_cons_of_mem _ hs)) _ hstep.2,
      hstep.1]
    cases rest with
    | nil => simp [joinSep]
    | cons d rest2 =>
      simp [joinSep, List.append_assoc]

theorem merge_result_join (st : List (List Char) × List Char) :
    joinSep "\n\n".data (if st.2 ≠ [] then attachToLast st.1 st.2 else st.1)
      = mergeJoinState st := by
  obtain ⟨merged, buf⟩ := st
  by_cases hbuf : buf = []
  · subst hbuf
    simp [mergeJoinState]
  · simp only [ne_eq, hbuf, not_false_eq_true, if_pos, ite_true]
    by_cases hm : merged = []
    · subst hm
      simp [attachToLast, mergeJoinState, hbuf, joinSep]
    · rw [attachToLast_join merged buf hm]
      simp [mergeJoinState, hbuf, hm]

/-- C6 counterexample.  `merge_small_chunks` tests buffer emptiness with
Python truthiness, so an empty input span is absorbed without its `"\n\n"`
separator: on the spans `["", "a"*50]` the merged output joins to `"a"*50`
while the input joins to `"\n\n" + "a"*50`.  The claim's join-preservation
equation therefore fails for span lists containing an empty span. -/
theorem claim_C6_counterexample :
    joinSep "\n\n".data (merge_small_chunks [[], List.replicate 50 'a'] 50)
      ≠ joinSep "\n\n".data [[], List.replicate 50 'a'] := by
  decide

/-- C6 as amended.  For every list of non-empty input spans (the only case
the counterexample excludes; the external splitter emits spans of real text),
`merge_small_chunks` loses no content and preserves order: joining its output
with `"\n\n"` yields exactly the join of the input spans, for any
`min_chars`. -/
theorem claim_C6_amended_join_preserved (l : List (List Char)) (min_chars : Nat)
    (hne : ∀ s ∈ l, s ≠ []) :
    joinSep "\n\n".data (merge_small_chunks l min_chars)
      = joinSep "\n\n".data l := by
  cases l with
  | nil => rfl
  | cons c rest =>
    have hc : c ≠ [] := hne c (by simp)
    have h1 : mergeJoinState (mergeStep min_chars ([], []) c) = c
        ∧ ((mergeStep min_chars ([], []) c).1 ≠ []
            ∨ (mergeStep min_chars ([], []) c).2 ≠ []) := by
      simp only [mergeStep, ne_eq, not_true_eq_false, ite_false, reduceIte]
      split_ifs with hflush
      · exact ⟨by simp [mergeJoinState, joinSep], by simp⟩
      · exact ⟨by simp [mergeJoinState, hc], Or.inr hc⟩
    unfold merge_small_chunks
    rw [if_neg (by simp)]
    dsimp only
    rw [merge_result_join, List.foldl_cons,
      merge_fold_join min_chars rest (fun s hs => hne s (List.mem_cons_of_mem _ hs))
        _ h1.2, h1.1]
    cases rest with
    | nil => simp [joinSep]
    | cons d rest2 => simp [joinSep, List.append_assoc]

/-- Closed witness for C6 (amended): two non-empty spans, one undersized. -/
theorem claim_C6_witness :
    joinSep "\n\n".data (merge_small_chunks ["ab".data, List.replicate 60 'a'] 50)
      = joinSep "\n\n".data ["ab".data, List.replicate 60 'a'] :=
  claim_C6_amended_join_preserved ["ab".data, List.replicate 60 'a'] 50 (by decide)

/-! ### Failure atomicity of the Query Engine (C1) -/

/-- C1.  For every request (`query` or `query_stream`), when any oracle step
(rewrite, retrieval, generation / token stream) raises, every session's
history is exactly what it was before the request — no partial appends; on
success the target session's history is the old history with the user
question appended and then the assistant answer (each append trimmed as
usual), in that order, and every other session is untouched.  In the
streaming case the persisted answer is the concatenation of the yielded
tokens, appended only once the stream has been fully drained (error-free).
The generated fallback id is assumed fresh (`hfresh`; claim C9 covers its
collision behavior). -/
theorem claim_C1_no_partial_appends {E : Type} (o : Oracles E) (newId : String)
    (st : SessionStore) (q : String) (sid? : Option String)
    (hfresh : lookupStore st newId = none) :
    (∀ e, (query o newId st q sid?).1 = .error e →
        ∀ id, histOf (query o newId st q sid?).2 id = histOf st id)
    ∧ (∀ res, (query o newId st q sid?).1 = .ok res →
        ∀ id, histOf (query o newId st q sid?).2 id
          = if id = res.session_id then
              lastN (MAX_HISTORY_TURNS * 2)
                (lastN (MAX_HISTORY_TURNS * 2)
                    (histOf st id ++ [{ role := "user", content := q }])
                  ++ [{ role := "assistant", content := res.answer }])
            else histOf st id)
    ∧ (∀ e, (query_stream o newId st q sid?).1.2 = .error e →
        ∀ id, histOf (query_stream o newId st q sid?).2 id = histOf st id)
    ∧ (∀ meta, (query_stream o newId st q sid?).1.2 = .ok meta →
        ∀ id, histOf (query_stream o newId st q sid?).2 id
          = if id = meta.session_id then
              lastN (MAX_HISTORY_TURNS * 2)
                (lastN (MAX_HISTORY_TURNS * 2)
                    (histOf st id ++ [{ role := "user", content := q }])
                  ++ [{ role := "assistant",
                        content := String.join (query_stream o newId st q sid?).1.1 }])
            else histOf st id) := by
  have hbase := resolve_session_base st newId hfresh sid?
  refine ⟨?_, ?_, ?_, ?_⟩
  · intro e he id
    have h2 : (query o newId st q sid?).2 = (resolve_session st newId sid?).2 :=
      query_core_error_store o _ _ q e he
    rw [h2]
    exact hbase id
  · intro res hres id
    have hok := query_core_ok_store o (resolve_session st newId sid?).2
      (resolve_session st newId sid?).1 q res hres
    have hst : (query o newId st q sid?).2
        = append_to_session (append_to_session (resolve_session st newId sid?).2
            (resolve_session st newId sid?).1 "user" q)
            (resolve_session st newId sid?).1 "assistant" res.answer := hok.2
    rw [hst, hok.1]
    by_cases hid : id = (resolve_session st newId sid?).1
    · subst hid
      rw [if_pos rfl, histOf_append_self, histOf_append_self, hbase]
    · rw [if_neg hid, histOf_append_other _ _ _ _ _ (fun hh => hid hh.symm),
        histOf_append_other _ _ _ _ _ (fun hh => hid hh.symm), hbase]
  · intro e he id
    have h2 : (query_stream o newId st q sid?).2 = (resolve_session st newId sid?).2 :=
      query_stream_core_error_store o _ _ q e he
    rw [h2]
    exact hbase id
  · intro meta hmeta id
    have hok := query_stream_core_ok_store o (resolve_session st newId sid?).2
      (resolve_session st newId sid?).1 q meta hmeta
    have hst : (query_stream o newId st q sid?).2
        = append_to_session (append_to_session (resolve_session st newId sid?).2
            (resolve_session st newId sid?).1 "user" q)
            (resolve_session st newId sid?).1 "assistant"
            (String.join (query_stream o newId st q sid?).1.1) := hok.2
    rw [hst, hok.1]
    by_cases hid : id = (resolve_session st newId sid?).1
    · subst hid
      rw [if_pos rfl, histOf_append_self, histOf_append_self, hbase]
    · rw [if_neg hid, histOf_append_other _ _ _ _ _ (fun hh => hid hh.symm),
        histOf_append_other _ _ _ _ _ (fun hh => hid hh.symm), hbase]

/-- Closed witness for C1: at a store holding one session `"s1"` with one
message, a failed generation (batch and streaming) leaves that history
untouched, and a successful query appends the two fresh messages. -/
theorem claim_C1_witness :
    histOf (query failingOracles "fresh"
        [("s1", [{ role := "user", content := "old" }])] "q" (some "s1")).2 "s1"
      = histOf [("s1", [{ role := "user", content := "old" }])] "s1"
    ∧ histOf (query_stream failingOracles "fresh"
        [("s1", [{ role := "user", content := "old" }])] "q" (some "s1")).2 "s1"
      = histOf [("s1", [{ role := "user", content := "old" }])] "s1"
    ∧ histOf (query sampleOracles "fresh"
        [("s1", [{ role := "user", content := "old" }])] "q" (some "s1")).2 "s1"
      = if "s1" = (QueryResult.mk "It costs 120 KWD."
            ["https://cellavenue.example/phone-x"] "en" 1 "s1").session_id then
          lastN (MAX_HISTORY_TURNS * 2)
            (lastN (MAX_HISTORY_TURNS * 2)
                (histOf [("s1", [{ role := "user", content := "old" }])] "s1"
                  ++ [{ role := "user", content := "q" }])
              ++ [{ role := "assistant",
                    content := (QueryResult.mk "It costs 120 KWD."
                      ["https://cellavenue.example/phone-x"] "en" 1 "s1").answer }])
        else histOf [("s1", [{ role := "user", content := "old" }])] "s1" := by
  refine ⟨?_, ?_, ?_⟩
  · exact (claim_C1_no_partial_appends failingOracles "fresh"
      [("s1", [{ role := "user", content := "old" }])] "q" (some "s1")
      (by decide)).1 "rate limit" rfl "s1"
  · exact (claim_C1_no_partial_appends failingOracles "fresh"
      [("s1", [{ role := "user", content := "old" }])] "q" (some "s1")
      (by decide)).2.2.1 "disconnect" rfl "s1"
  · exact (claim_C1_no_partial_appends sampleOracles "fresh"
      [("s1", [{ role := "user", content := "old" }])] "q" (some "s1")
      (by decide)).2.1 _ rfl "s1"

/-! ### Whitespace-normalization normal forms (C7) -/

theorem dropWhile_head_false {p : Char → Bool} :
    ∀ (l : List Char) (y : Char) (t : List Char),
    l.dropWhile p = y :: t → p y = false := by
  intro l
  induction l with
  | nil => intro y t h; simp [List.dropWhile] at h
  | cons c rest ih =>
    intro y t h
    by_cases hc : p c
    · rw [List.dropWhile_cons_of_pos hc] at h
      exact ih y t h
    · rw [List.dropWhile_cons_of_neg hc] at h
      cases h
      exact Bool.of_not_eq_true hc

theorem dropWhile_eq_self_of_head {p : Char → Bool} (l : List Char)
    (h : ∀ y ∈ l.head?, p y = false) : l.dropWhile p = l := by
  cases l with
  | nil => rfl
  | cons c rest =>
    have hc : p c = false := h c rfl
    have hc2 : ¬ p c = true := by rw [hc]; simp
    rw [List.dropWhile_cons_of_neg hc2]

theorem pyRStrip_shape :
    ∀ (l : List Char) (y : Char) (t : List Char), pyRStrip l = y :: t →
    ∃ l2, l = y :: l2 ∧ (t = [] ∨ t = pyRStrip l2) := by
  intro l
  induction l with
  | nil => intro y t h; simp [pyRStrip] at h
  | cons c rest ih =>
    intro y t h
    unfold pyRStrip at h
    cases hr : pyRStrip rest with
    | nil =>
      rw [hr] at h
      by_cases hc : isPySpace c
      · rw [if_pos hc] at h
        cases h
      · rw [if_neg hc] at h
        injection h with h1 h2
        subst h1
        subst h2
        exact ⟨rest, rfl, Or.inl rfl⟩
    | cons z zs =>
      rw [hr] at h
      cases h
      exact ⟨rest, rfl, Or.inr hr.symm⟩

theorem pyRStrip_last :
    ∀ (l : List Char) (y : Char), (pyRStrip l).getLast? = some y →
    isPySpace y = false := by
  intro l
  induction l with
  | nil => intro y h; simp [pyRStrip] at h
  | cons c rest ih =>
    intro y h
    unfold pyRStrip at h
    cases hr : pyRStrip rest with
    | nil =>
      rw [hr] at h
      by_cases hc : isPySpace c
      · rw [if_pos hc] at h
        simp at h
      · rw [if_neg hc] at h
        simp at h
        subst h
        exact Bool.of_not_eq_true hc
    | cons z zs =>
      rw [hr] at h
      rw [List.getLast?_cons_cons] at h
      exact ih y (hr ▸ h)

theorem pyRStrip_eq_self : ∀ (l : List Char),
    (∀ y, l.getLast? = some y → isPySpace y = false) → pyRStrip l = l := by
  intro l
  induction l with
  | nil => intro h; rfl
  | cons c rest ih =>
    intro h
    unfold pyRStrip
    cases rest with
    | nil =>
      have hc := h c (by simp)
      simp [pyRStrip, hc]
    | cons z zs =>
      have hr : pyRStrip (z :: zs) = z :: zs := by
        apply ih
        intro y hy
        apply h
        rw [List.getLast?_cons_cons]
        exact hy
      rw [hr]

theorem pyStrip_idem (l : List Char) : pyStrip (pyStrip l) = pyStrip l := by
  unfold pyStrip
  have h1 : (pyRStrip (l.dropWhile isPySpace)).dropWhile isPySpace
      = pyRStrip (l.dropWhile isPySpace) := by
    apply dropWhile_eq_self_of_head
    intro y hy
    cases hp : pyRStrip (l.dropWhile isPySpace) with
    | nil => rw [hp] at hy; simp at hy
    | cons z zs =>
      rw [hp] at hy
      simp at hy
      obtain ⟨l2, hl2, _⟩ := pyRStrip_shape _ z zs hp
      subst hy
      exact dropWhile_head_false l z l2 hl2
  rw [h1]
  apply pyRStrip_eq_self
  intro y hy
  exact pyRStrip_last _ y hy

theorem crToNL_ne_cr (c : Char) : crToNL c ≠ '\r' := by
  unfold crToNL
  split_ifs with h
  · decide
  · exact h

theorem replaceCRLF_eq_self (l : List Char) (h : ∀ c ∈ l, c ≠ '\r') :
    replaceCRLF l = l := by
  induction l using replaceCRLF.induct with
  | case1 => rfl
  | case2 c => rfl
  | case3 c d rest hcd ih => exact absurd hcd.1 (h c (by simp))
  | case4 c d rest hcd ih =>
    simp only [replaceCRLF, if_neg hcd]
    rw [ih (fun x hx => h x (List.mem_cons_of_mem _ hx))]

theorem map_crToNL_eq_self (l : List Char) (h : ∀ c ∈ l, c ≠ '\r') :
    l.map crToNL = l := by
  induction l with
  | nil => rfl
  | cons c rest ih =>
    have hc : crToNL c = c := by
      unfold crToNL
      rw [if_neg (h c (by simp))]
    simp only [List.map_cons, hc]
    rw [ih (fun x hx => h x (List.mem_cons_of_mem _ hx))]

theorem mem_collapseSpaces (l : List Char) :
    ∀ c ∈ collapseSpaces l, c ∈ l ∨ c = ' ' := by
  induction l using collapseSpaces.induct with
  | case1 => simp [collapseSpaces]
  | case2 c hc => simp [collapseSpaces, hc]
  | case3 c hc => simp [collapseSpaces, hc]
  | case4 c d rest hcd ih =>
    intro x hx
    simp only [collapseSpaces, if_pos hcd] at hx
    rcases ih x hx with h2 | h2
    · exact Or.inl (List.mem_cons_of_mem _ h2)
    · exact Or.inr h2
  | case5 c d rest hcd ih =>
    intro x hx
    simp only [collapseSpaces, if_neg hcd, List.mem_cons] at hx
    rcases hx with hx | hx
    · split_ifs at hx with hc
      · exact Or.inr hx
      · exact Or.inl (by simp [hx])
    · rcases ih x hx with h2 | h2
      · exact Or.inl (List.mem_cons_of_mem _ h2)
      · exact Or.inr h2

theorem cSP_noTab (l : List Char) : ∀ c ∈ collapseSpaces l, c ≠ '\t' := by
  induction l using collapseSpaces.induct with
  | case1 => simp [collapseSpaces]
  | case2 c hc => simp [collapseSpaces, hc]
  | case3 c hc =>
    simp [collapseSpaces, hc]
    intro hcontra
    subst hcontra
    simp [isSpTab] at hc
  | case4 c d rest hcd ih =>
    intro x hx
    simp only [collapseSpaces, if_pos hcd] at hx
    exact ih x hx
  | case5 c d rest hcd ih =>
    intro x hx
    simp only [collapseSpaces, if_neg hcd, List.mem_cons] at hx
    rcases hx with hx | hx
    · subst hx
      split_ifs with hc
      · decide
      · intro hcontra
        subst hcontra
        simp [isSpTab] at hc
    · exact ih x hx

theorem head_cSP_of_not (d : Char) (rest : List Char) (hd : isSpTab d = false) :
    (collapseSpaces (d :: rest)).head? = some d := by
  cases rest with
  | nil => simp [collapseSpaces, hd]
  | cons e rest2 =>
    have h2 : (isSpTab d && isSpTab e) = false := by simp [hd]
    simp [collapseSpaces, h2, hd]

theorem noDbl_cons_of (x : Char) (l : List Char)
    (hh : ∀ y, l.head? = some y → ¬(isSpTab x = true ∧ isSpTab y = true))
    (hl : noDbl l) : noDbl (x :: l) := by
  cases l with
  | nil => trivial
  | cons y t => exact ⟨hh y rfl, hl⟩

theorem noDbl_tail (x : Char) (l : List Char) (h : noDbl (x :: l)) : noDbl l := by
  cases l with
  | nil => trivial
  | cons y t => exact h.2

theorem cSP_noDbl (l : List Char) : noDbl (collapseSpaces l) := by
  induction l using collapseSpaces.induct with
  | case1 => trivial
  | case2 c hc => simp only [collapseSpaces, if_pos hc]; trivial
  | case3 c hc => simp only [collapseSpaces, if_neg hc]; trivial
  | case4 c d rest hcd ih =>
    simp only [collapseSpaces, if_pos hcd]
    exact ih
  | case5 c d rest hcd ih =>
    simp only [collapseSpaces, if_neg hcd]
    apply noDbl_cons_of _ _ _ ih
    intro y hy hcontra
    by_cases hc : isSpTab c = true
    · have hd : isSpTab d = false := by
        cases hd2 : isSpTab d
        · rfl
        · exact absurd (by simp [hc, hd2]) hcd
      rw [head_cSP_of_not d rest hd] at hy
      cases hy
      rw [hd] at hcontra
      exact Bool.false_ne_true hcontra.2
    · have hx : (if isSpTab c = true then ' ' else c) = c := if_neg hc
      rw [hx] at hcontra
      exact hc hcontra.1

theorem cSP_eq_self (l : List Char) (hdbl : noDbl l) (htab : ∀ c ∈ l, c ≠ '\t') :
    collapseSpaces l = l := by
  induction l using collapseSpaces.induct with
  | case1 => rfl
  | case2 c hc =>
    have : c = ' ' := by
      have hct := htab c (by simp)
      simp [isSpTab] at hc
      rcases hc with hc | hc
      · exact hc
      · exact absurd hc hct
    simp [collapseSpaces, hc, this]
  | case3 c hc => simp [collapseSpaces, hc]
  | case4 c d rest hcd ih =>
    exact absurd ⟨by simp at hcd; exact hcd.1, by simp at hcd; exact hcd.2⟩ hdbl.1
  | case5 c d rest hcd ih =>
    simp only [collapseSpaces, if_neg hcd]
    have hx : (if isSpTab c = true then ' ' else c) = c := by
      split_ifs with hc
      · have hct := htab c (by simp)
        simp [isSpTab] at hc
        rcases hc with hc | hc
        · exact hc.symm
        · exact absurd hc hct
      · rfl
    rw [hx, ih (noDbl_tail _ _ hdbl) (fun x hx2 => htab x (List.mem_cons_of_mem _ hx2))]

theorem head?_cNL (l : List Char) : (collapseNewlines l).head? = l.head? := by
  induction l using collapseNewlines.induct with
  | case1 => rfl
  | case2 c => rfl
  | case3 c d => rfl
  | case4 c d e rest hcde ih =>
    simp only [collapseNewlines, if_pos hcde]
    rw [ih]
    simp only [List.head?_cons, hcde.1, hcde.2.1]
  | case5 c d e rest hcde ih =>
    simp only [collapseNewlines, if_neg hcde]
    rfl

theorem mem_cNL (l : List Char) : ∀ c ∈ collapseNewlines l, c ∈ l := by
  induction l using collapseNewlines.induct with
  | case1 => simp [collapseNewlines]
  | case2 c => simp [collapseNewlines]
  | case3 c d => simp [collapseNewlines]
  | case4 c d e rest h ih =>
    intro x hx
    simp only [collapseNewlines, if_pos h] at hx
    exact List.mem_cons_of_mem _ (ih x hx)
  | case5 c d e rest h ih =>
    intro x hx
    simp only [collapseNewlines, if_neg h, List.mem_cons] at hx
    rcases hx with hx | hx
    · simp [hx]
    · exact List.mem_cons_of_mem _ (ih x hx)

theorem cNL_nl_ne (e : Char) (rest : List Char) (he : e ≠ '\n') :
    collapseNewlines ('\n' :: e :: rest) = '\n' :: collapseNewlines (e :: rest) := by
  cases rest with
  | nil => rfl
  | cons r rs =>
    simp only [collapseNewlines]
    rw [if_neg (by simp [he])]

theorem noTri_tail (x : Char) (l : List Char) (h : noTri (x :: l)) : noTri l := by
  cases l with
  | nil => trivial
  | cons y t =>
    cases t with
    | nil => trivial
    | cons z t2 => exact h.2

theorem noTri_cons_ne (x : Char) (l : List Char) (hx : x ≠ '\n') (hl : noTri l) :
    noTri (x :: l) := by
  cases l with
  | nil => trivial
  | cons y t =>
    cases t with
    | nil => trivial
    | cons z t2 => exact ⟨fun hcontra => hx hcontra.1, hl⟩

theorem noTri_cons_head_ne (x : Char) (l : List Char)
    (hh : ∀ y, l.head? = some y → y ≠ '\n') (hl : noTri l) : noTri (x :: l) := by
  cases l with
  | nil => trivial
  | cons y t =>
    cases t with
    | nil => trivial
    | cons z t2 => exact ⟨fun hcontra => hh y rfl hcontra.2.1, hl⟩

theorem noTri_nl_nl (l : List Char) (hh : ∀ y, l.head? = some y → y ≠ '\n')
    (hl : noTri l) : noTri ('\n' :: '\n' :: l) := by
  cases l with
  | nil => trivial
  | cons a t =>
    refine ⟨fun hcontra => hh a rfl hcontra.2.2, ?_⟩
    exact noTri_cons_head_ne '\n' (a :: t) hh hl

theorem cNL_noTri : ∀ (l : List Char), noTri (collapseNewlines l)
  | [] => trivial
  | [_] => trivial
  | [_, _] => trivial
  | c :: d :: e :: rest => by
    by_cases hcond : c = '\n' ∧ d = '\n' ∧ e = '\n'
    · simp only [collapseNewlines, if_pos hcond]
      exact cNL_noTri (d :: e :: rest)
    · simp only [collapseNewlines, if_neg hcond]
      by_cases hc : c = '\n'
      · by_cases hd : d = '\n'
        · have he : e ≠ '\n' := fun he2 => hcond ⟨hc, hd, he2⟩
          subst hc
          subst hd
          rw [cNL_nl_ne e rest he]
          apply noTri_nl_nl
          · intro y hy
            rw [head?_cNL] at hy
            cases hy
            exact he
          · exact cNL_noTri (e :: rest)
        · apply noTri_cons_head_ne
          · intro y hy
            rw [head?_cNL] at hy
            cases hy
            exact hd
          · exact cNL_noTri (d :: e :: rest)
      · exact noTri_cons_ne c _ hc (cNL_noTri (d :: e :: rest))
termination_by l => l.length

theorem cNL_eq_self : ∀ (l : List Char), noTri l → collapseNewlines l = l
  | [], _ => rfl
  | [_], _ => rfl
  | [_, _], _ => rfl
  | c :: d :: e :: rest, h => by
    simp only [collapseNewlines, if_neg h.1]
    rw [cNL_eq_self (d :: e :: rest) h.2]
termination_by l => l.length

theorem cNL_noDbl : ∀ (l : List Char), noDbl l → noDbl (collapseNewlines l)
  | [], _ => trivial
  | [_], _ => trivial
  | [_, _], h => h
  | c :: d :: e :: rest, h => by
    by_cases hcond : c = '\n' ∧ d = '\n' ∧ e = '\n'
    · simp only [collapseNewlines, if_pos hcond]
      exact cNL_noDbl (d :: e :: rest) (noDbl_tail _ _ h)
    · simp only [collapseNewlines, if_neg hcond]
      apply noDbl_cons_of
      · intro y hy hcontra
        rw [head?_cNL] at hy
        cases hy
        exact h.1 hcontra
      · exact cNL_noDbl (d :: e :: rest) (noDbl_tail _ _ h)
termination_by l => l.length

theorem noDbl_dropWhile (p : Char → Bool) :
    ∀ (l : List Char), noDbl l → noDbl (l.dropWhile p)
  | [], _ => by simp [List.dropWhile]; trivial
  | c :: rest, h => by
    by_cases hc : p c
    · rw [List.dropWhile_cons_of_pos hc]
      exact noDbl_dropWhile p rest (noDbl_tail _ _ h)
    · rw [List.dropWhile_cons_of_neg hc]
      exact h

theorem noTri_dropWhile (p : Char → Bool) :
    ∀ (l : List Char), noTri l → noTri (l.dropWhile p)
  | [], _ => by simp [List.dropWhile]; trivial
  | c :: rest, h => by
    by_cases hc : p c
    · rw [List.dropWhile_cons_of_pos hc]
      exact noTri_dropWhile p rest (noTri_tail _ _ h)
    · rw [List.dropWhile_cons_of_neg hc]
      exact h

theorem noDbl_pyRStrip : ∀ (l : List Char), noDbl l → noDbl (pyRStrip l)
  | [], _ => trivial
  | c :: rest, h => by
    unfold pyRStrip
    cases hr : pyRStrip rest with
    | nil => split_ifs <;> trivial
    | cons y t =>
      obtain ⟨l2, hl2, _⟩ := pyRStrip_shape rest y t hr
      apply noDbl_cons_of
      · intro z hz hcontra
        rw [List.head?_cons] at hz
        cases hz
        rw [hl2] at h
        exact h.1 hcontra
      · rw [← hr]
        exact noDbl_pyRStrip rest (noDbl_tail _ _ h)

theorem noTri_pyRStrip : ∀ (l : List Char), noTri l → noTri (pyRStrip l)
  | [], _ => trivial
  | c :: rest, h => by
    unfold pyRStrip
    cases hr : pyRStrip rest with
    | nil => split_ifs <;> trivial
    | cons y t =>
      cases t with
      | nil => trivial
      | cons z t2 =>
        obtain ⟨l2, hl2, ht⟩ := pyRStrip_shape rest y (z :: t2) hr
        rcases ht with ht | ht
        · cases ht
        · obtain ⟨l3, hl3, _⟩ := pyRStrip_shape l2 z t2 ht.symm
          refine ⟨?_, ?_⟩
          · intro hcontra
            rw [hl2, hl3] at h
            exact h.1 hcontra
          · rw [← hr]
            exact noTri_pyRStrip rest (noTri_tail _ _ h)

theorem mem_pyRStrip : ∀ (l : List Char), ∀ c ∈ pyRStrip l, c ∈ l
  | [], c, hc => by simp [pyRStrip] at hc
  | d :: rest, c, hc => by
    unfold pyRStrip at hc
    cases hr : pyRStrip rest with
    | nil =>
      rw [hr] at hc
      split_ifs at hc with hd
      · simp at hc
      · simp at hc
        simp [hc]
    | cons y t =>
      rw [hr] at hc
      rcases List.mem_cons.mp hc with hc | hc
      · simp [hc]
      · exact List.mem_cons_of_mem _ (mem_pyRStrip rest c (hr ▸ hc))

theorem mem_pyStrip (l : List Char) : ∀ c ∈ pyStrip l, c ∈ l := by
  intro c hc
  exact (List.dropWhile_sublist isPySpace).subset
    (mem_pyRStrip (l.dropWhile isPySpace) c hc)

/-- C7 counterexample.  Cleaning is not idempotent: on the product-free page
text `"menu\n a\na"` the first pass drops the `menu` stoplist line, keeping
the lines `" a"` and `"a"`, and final whitespace normalization strips the
leading space of the first — producing `"a\na"`.  Re-cleaning that output now
sees two identical consecutive lines and `dedupe_consecutive` removes one,
yielding `"a"` ≠ `"a\na"`. -/
theorem claim_C7_counterexample :
    clean_markdown (clean_markdown "menu\n a\na".data "other") "other"
      ≠ clean_markdown "menu\n a\na".data "other" := by
  decide

/-- C7 as amended.  The Cleaner as a whole is not idempotent (see the
counterexample), but its `normalize_whitespace` step — the component the
claim's sources single out — is: normalizing already-normalized text changes
nothing, for every input. -/
theorem claim_C7_amended_normalize_idempotent (x : List Char) :
    normalize_whitespace (normalize_whitespace x) = normalize_whitespace x := by
  unfold normalize_whitespace
  have hCR : ∀ c ∈ pyStrip (collapseNewlines (collapseSpaces
      ((replaceCRLF x).map crToNL))), c ≠ '\r' := by
    intro c hc
    have h1 := mem_pyStrip _ c hc
    have h2 := mem_cNL _ c h1
    rcases mem_collapseSpaces _ c h2 with h3 | h3
    · rcases List.mem_map.mp h3 with ⟨z, _, hz⟩
      rw [← hz]
      exact crToNL_ne_cr z
    · rw [h3]
      decide
  have hTab : ∀ c ∈ pyStrip (collapseNewlines (collapseSpaces
      ((replaceCRLF x).map crToNL))), c ≠ '\t' := by
    intro c hc
    exact cSP_noTab _ c (mem_cNL _ c (mem_pyStrip _ c hc))
  have hDbl : noDbl (pyStrip (collapseNewlines (collapseSpaces
      ((replaceCRLF x).map crToNL)))) := by
    unfold pyStrip
    exact noDbl_pyRStrip _ (noDbl_dropWhile _ _ (cNL_noDbl _ (cSP_noDbl _)))
  have hTri : noTri (pyStrip (collapseNewlines (collapseSpaces
      ((replaceCRLF x).map crToNL)))) := by
    unfold pyStrip
    exact noTri_pyRStrip _ (noTri_dropWhile _ _ (cNL_noTri _))
  rw [replaceCRLF_eq_self _ hCR, map_crToNL_eq_self _ hCR,
    cSP_eq_self _ hDbl hTab, cNL_eq_self _ hTri, pyStrip_idem]
